import Mathlib

/-!
# Verification of the NachOS file-storage core (DandinPower/111-2-FileStorageSystem)

Shallow embedding of the four-level file-header allocator, the pointer-tree
serialization, the directory table and the file-system orchestration found in
the repository, together with proofs and refutations of the frozen claims.

Sources embedded:
* `code/filesys/filehdr.h` (constants, class layout) and the four-level
  `filehdr.cc` (FileHeader / DirectPointer / SingleIndirectPointer /
  DoubleIndirectPointer / TripleIndirectPointer);
* `directory.h` / `directory.cc` (DirectoryEntry, Add, FindIndex, Remove);
* `filesys.cc` (FileSystem::CreateFile, Remove, OpenAFile, path walking,
  open-file table).

`SectorSize` and `NumSectors` live in `disk.h`, which is not part of the
sources; the spec fixes them as S = 128 and N = 128, and the comments in
`filehdr.h` (for example "128bytes * 30 = 3840bytes") confirm S = 128.
-/

namespace NachFS

/-- Sector width in bytes.  Modelled from the spec: `disk.h` is absent from
the sources; spec §3 fixes the sector width `S` at 128, matching the
comments in `filehdr.h` (`LEVEL_1_SIZE ... 128bytes * 30 = 3840bytes`). -/
def SectorSize : Nat := 128

/-- Total sector count of the simulated disk.  Modelled from the spec:
`disk.h` is absent from the sources; spec §8 fixes `N = 128`. -/
def NumSectors : Nat := 128

/-- `#define NUM_INT_IN_SECTOR (SectorSize / sizeof(int))` with 32-bit ints. -/
def NUM_INT_IN_SECTOR : Nat := SectorSize / 4

/-- `#define NUM_FILE_HEADER_POINTER (NUM_INT_IN_SECTOR - 2)` (= 30). -/
def NUM_FILE_HEADER_POINTER : Nat := NUM_INT_IN_SECTOR - 2

/-- `#define NUM_INDIRECT_POINTER (NUM_INT_IN_SECTOR - 1)` (= 31). -/
def NUM_INDIRECT_POINTER : Nat := NUM_INT_IN_SECTOR - 1

/-- `#define LEVEL_1_SECTOR_NUM NUM_FILE_HEADER_POINTER` (= 30). -/
def LEVEL_1_SECTOR_NUM : Nat := NUM_FILE_HEADER_POINTER

/-- `#define LEVEL_2_SECTOR_NUM NUM_FILE_HEADER_POINTER * NUM_INDIRECT_POINTER` (= 930). -/
def LEVEL_2_SECTOR_NUM : Nat := NUM_FILE_HEADER_POINTER * NUM_INDIRECT_POINTER

/-- `#define LEVEL_3_SECTOR_NUM ... * NUM_INDIRECT_POINTER^2` (= 28830). -/
def LEVEL_3_SECTOR_NUM : Nat :=
  NUM_FILE_HEADER_POINTER * NUM_INDIRECT_POINTER * NUM_INDIRECT_POINTER

/-- `#define LEVEL_4_SECTOR_NUM ... * NUM_INDIRECT_POINTER^3` (= 893730). -/
def LEVEL_4_SECTOR_NUM : Nat :=
  NUM_FILE_HEADER_POINTER * NUM_INDIRECT_POINTER * NUM_INDIRECT_POINTER * NUM_INDIRECT_POINTER

/-- `#define LEVEL_1_SIZE SectorSize * LEVEL_1_SECTOR_NUM` (= 3840). -/
def LEVEL_1_SIZE : Nat := SectorSize * LEVEL_1_SECTOR_NUM

/-- `#define LEVEL_2_SIZE SectorSize * LEVEL_2_SECTOR_NUM` (= 119040). -/
def LEVEL_2_SIZE : Nat := SectorSize * LEVEL_2_SECTOR_NUM

/-- `#define LEVEL_3_SIZE SectorSize * LEVEL_3_SECTOR_NUM` (= 3690240). -/
def LEVEL_3_SIZE : Nat := SectorSize * LEVEL_3_SECTOR_NUM

/-- `#define LEVEL_4_SIZE SectorSize * LEVEL_4_SECTOR_NUM` (= 114397440). -/
def LEVEL_4_SIZE : Nat := SectorSize * LEVEL_4_SECTOR_NUM

/-- `const int SECTOR_NUM_IN_LEVEL[5] = {1, LEVEL_1_SECTOR_NUM, LEVEL_2_SECTOR_NUM,
LEVEL_3_SECTOR_NUM, LEVEL_4_SECTOR_NUM};` -/
def SECTOR_NUM_IN_LEVEL : List Nat :=
  [1, LEVEL_1_SECTOR_NUM, LEVEL_2_SECTOR_NUM, LEVEL_3_SECTOR_NUM, LEVEL_4_SECTOR_NUM]

/-- `SIZE_IN_LEVEL[k]`, the per-subtree byte capacity used by the
`ByteToSector` routines.  The array itself is declared in the four-level
`filehdr.h`, which is not among the sources; its value is pinned by the
uses in `filehdr.cc` (`SIZE_IN_LEVEL[level - 1]` must be the byte span of
one top-level pointer of that level) and by the `LEVEL_k_SIZE` pattern:
`SIZE_IN_LEVEL[k] = SectorSize * SECTOR_NUM_IN_LEVEL[k]`. -/
def SIZE_IN_LEVEL : List Nat := SECTOR_NUM_IN_LEVEL.map (fun n => SectorSize * n)

/-- NachOS `divRoundUp(n, s)` for non-negative arguments: ceiling division. -/
def divRoundUp (n s : Nat) : Nat := (n + s - 1) / s

/-- NachOS `divRoundDown(n, s)`: floor division. -/
def divRoundDown (n s : Nat) : Nat := n / s

/-- The level-selection chain of `FileHeader::Allocate` (filehdr.cc):
`if (fileSize <= LEVEL_1_SIZE) level = LEVEL_1; else if ...`; `none` models
the `return false` branch (`TooLarge`). -/
def allocLevel (fileSize : Nat) : Option Nat :=
  if fileSize ≤ LEVEL_1_SIZE then some 1
  else if fileSize ≤ LEVEL_2_SIZE then some 2
  else if fileSize ≤ LEVEL_3_SIZE then some 3
  else if fileSize ≤ LEVEL_4_SIZE then some 4
  else none

/-- The level re-derivation chain of `FileHeader::FetchFrom` (filehdr.cc):
the same four-way comparison applied to the stored `numBytes`; `none`
models the `decideLevel = false` branch whose `ASSERT(decideLevel)` aborts. -/
def fetchLevel (numBytes : Nat) : Option Nat :=
  if numBytes ≤ LEVEL_1_SIZE then some 1
  else if numBytes ≤ LEVEL_2_SIZE then some 2
  else if numBytes ≤ LEVEL_3_SIZE then some 3
  else if numBytes ≤ LEVEL_4_SIZE then some 4
  else none

/-- `numPointer = divRoundUp(numSectors, SECTOR_NUM_IN_LEVEL[level - 1])`
computed by `FileHeader::Allocate` once `level` has been selected, where
`numSectors = divRoundUp(fileSize, SectorSize)`. -/
def allocNumPointer (fileSize level : Nat) : Nat :=
  divRoundUp (divRoundUp fileSize SectorSize) (SECTOR_NUM_IN_LEVEL.getD (level - 1) 1)

/-- Level selection paired with the pointer count, the values feeding the
`ASSERT(numPointer <= NUM_FILE_HEADER_POINTER)` in `FileHeader::Allocate`. -/
def allocSelect (fileSize : Nat) : Option (Nat × Nat) :=
  (allocLevel fileSize).map (fun lv => (lv, allocNumPointer fileSize lv))

/-! ## Persistent bitmap (pbitmap / bitmap.cc)

The bitmap is modelled as a `List Bool` indexed by sector number
(`true` = used).  `FindAndSet` returns the lowest clear bit and marks it;
`NumClear` counts clear bits. -/

/-- `Bitmap::Test(which)`. -/
def bmTest (bm : List Bool) (s : Nat) : Bool := bm.getD s false

/-- `Bitmap::NumClear()`: number of clear bits. -/
def numClear (bm : List Bool) : Nat := bm.count false

/-- `Bitmap::FindAndSet()`: lowest clear bit, marked used; `none` models the
`-1` return when no bit is clear. -/
def findAndSet : List Bool → Option (Nat × List Bool)
  | [] => none
  | b :: rest =>
    if b then (findAndSet rest).map (fun p => (p.1 + 1, b :: p.2))
    else some (0, true :: rest)

/-- `Bitmap::Clear(which)`. -/
def bmClear (bm : List Bool) (s : Nat) : List Bool := bm.set s false

/-- Run `FindAndSet` `k` times, collecting the sectors in order (the
`for (i = 0; i < n; i++) x[i] = freeMap->FindAndSet();` pattern). -/
def allocN : Nat → List Bool → Option (List Nat × List Bool)
  | 0, bm => some ([], bm)
  | k + 1, bm =>
    (findAndSet bm).bind fun p =>
      (allocN k p.2).map fun q => (p.1 :: q.1, q.2)

/-! ## In-memory pointer-tree objects (four-level filehdr.cc)

Sector numbers are modelled as `Nat` (every sector number reaching these
fields on the verified paths comes from `FindAndSet`, hence is
non-negative; the `ASSERT(... >= 0)` checks are therefore vacuous in the
model).  Uninitialized `pointerSectors` slots beyond `numPointer` — C++
indeterminate memory — are modelled as `0`; they are written to disk and
read back but never consulted by `ByteToSector` on in-range offsets.
`ASSERT` failures (which abort the simulator) are modelled as `none`. -/

/-- Pad an allocation result to the fixed C array length. -/
def padNat (l : List Nat) (n : Nat) : List Nat := l ++ List.replicate (n - l.length) 0

/-- `class DirectPointer`: one data sector. -/
structure DirectPointer where
  dataSector : Nat
deriving DecidableEq, Repr

/-- `class SingleIndirectPointer`: `numPointer` data sectors listed in
`pointerSectors[NUM_INDIRECT_POINTER]` (the active code stores data
sectors directly; the `DirectPointer table` member is commented out). -/
structure SingleIndirectPointer where
  numPointer : Nat
  pointerSectors : List Nat
deriving DecidableEq, Repr

/-- `class DoubleIndirectPointer`: `pointerSectors[i]` holds the sector of
the `i`-th `SingleIndirectPointer` child node. -/
structure DoubleIndirectPointer where
  numPointer : Nat
  pointerSectors : List Nat
  table : List SingleIndirectPointer
deriving DecidableEq, Repr

/-- `class TripleIndirectPointer`: children are `DoubleIndirectPointer`s. -/
structure TripleIndirectPointer where
  numPointer : Nat
  pointerSectors : List Nat
  table : List DoubleIndirectPointer
deriving DecidableEq, Repr

/-- `DataPointerInterface`: the tagged union of the four variants
(`GetNewPointerByLevel` picks the constructor from `level`). -/
inductive DataPtr where
  | dp (p : DirectPointer)
  | sp (p : SingleIndirectPointer)
  | ddp (p : DoubleIndirectPointer)
  | tp (p : TripleIndirectPointer)
deriving DecidableEq, Repr

/-- `class FileHeader` (four-level version): `numBytes`, `numPointer`, the
`pointerSectors[NUM_FILE_HEADER_POINTER]` array, the in-memory `level`
(not written to disk) and the live `table` entries (one per top pointer;
slots beyond `numPointer` are `nullptr` in C++ and absent here). -/
structure FileHeader where
  numBytes : Nat
  numPointer : Nat
  pointerSectors : List Nat
  level : Nat
  table : List DataPtr
deriving DecidableEq, Repr

/-! ### Allocation -/

/-- `DirectPointer::Allocate(freeMap, numSectors)`:
`ASSERT(numSectors == 1)`, free-space pre-check, one `FindAndSet`. -/
def DirectPointer.Allocate (bm : List Bool) (numSectors : Nat) :
    Option (DirectPointer × List Bool) :=
  if numSectors = 1 then
    if numClear bm < numSectors then none
    else (findAndSet bm).map fun p => (⟨p.1⟩, p.2)
  else none

/-- `SingleIndirectPointer::Allocate(freeMap, numSectors)`:
`ASSERT(numSectors <= LEVEL_1_SECTOR_NUM)`, pre-check, then `numSectors`
`FindAndSet`s into `pointerSectors`. -/
def SingleIndirectPointer.Allocate (bm : List Bool) (numSectors : Nat) :
    Option (SingleIndirectPointer × List Bool) :=
  if LEVEL_1_SECTOR_NUM < numSectors then none
  else if numClear bm < numSectors then none
  else (allocN numSectors bm).map fun q =>
    (⟨numSectors, padNat q.1 NUM_INDIRECT_POINTER⟩, q.2)

/-- The child-allocation loop shared by `DoubleIndirectPointer::Allocate`,
`TripleIndirectPointer::Allocate` and `FileHeader::Allocate`:
`ASSERT(remainSector > 0); allocateSectors = min(remainSector, chunk);
ASSERT(child.Allocate(freeMap, allocateSectors)); remainSector -= ...`.
Returns the children, the bitmap and the final `remainSector`. -/
def allocLoop (alloc : List Bool → Nat → Option (α × List Bool)) (chunk : Nat) :
    Nat → List Bool → Nat → Option (List α × List Bool × Nat)
  | 0, bm, remain => some ([], bm, remain)
  | n + 1, bm, remain =>
    if remain = 0 then none
    else
      (alloc bm (min remain chunk)).bind fun p =>
        (allocLoop alloc chunk n p.2 (remain - min remain chunk)).map fun q =>
          (p.1 :: q.1, q.2)

/-- `DoubleIndirectPointer::Allocate(freeMap, numSectors)`:
`ASSERT(numSectors <= LEVEL_2_SECTOR_NUM)`;
`numPointer = divRoundUp(numSectors, LEVEL_1_SECTOR_NUM)`; pre-check;
`numPointer` node sectors; children loop with chunk
`SECTOR_NUM_IN_LEVEL[1]`; `ASSERT(remainSector == 0)`. -/
def DoubleIndirectPointer.Allocate (bm : List Bool) (numSectors : Nat) :
    Option (DoubleIndirectPointer × List Bool) :=
  if LEVEL_2_SECTOR_NUM < numSectors then none
  else
    let np := divRoundUp numSectors LEVEL_1_SECTOR_NUM
    if numClear bm < np then none
    else
      (allocN np bm).bind fun q =>
        (allocLoop SingleIndirectPointer.Allocate (SECTOR_NUM_IN_LEVEL.getD 1 0)
            np q.2 numSectors).bind fun r =>
          if r.2.2 = 0 then some (⟨np, padNat q.1 NUM_INDIRECT_POINTER, r.1⟩, r.2.1)
          else none

/-- `TripleIndirectPointer::Allocate(freeMap, numSectors)`: as the double
variant with `LEVEL_3_SECTOR_NUM`, `LEVEL_2_SECTOR_NUM` and chunk
`SECTOR_NUM_IN_LEVEL[2]`. -/
def TripleIndirectPointer.Allocate (bm : List Bool) (numSectors : Nat) :
    Option (TripleIndirectPointer × List Bool) :=
  if LEVEL_3_SECTOR_NUM < numSectors then none
  else
    let np := divRoundUp numSectors LEVEL_2_SECTOR_NUM
    if numClear bm < np then none
    else
      (allocN np bm).bind fun q =>
        (allocLoop DoubleIndirectPointer.Allocate (SECTOR_NUM_IN_LEVEL.getD 2 0)
            np q.2 numSectors).bind fun r =>
          if r.2.2 = 0 then some (⟨np, padNat q.1 NUM_INDIRECT_POINTER, r.1⟩, r.2.1)
          else none

/-- `GetNewPointerByLevel(level)` followed by `table[i]->Allocate`: the
`default` case returns `nullptr`, and the subsequent
`ASSERT(table[i] != nullptr)` aborts — modelled as `none`. -/
def DataPtr.AllocateByLevel (level : Nat) (bm : List Bool) (k : Nat) :
    Option (DataPtr × List Bool) :=
  match level with
  | 1 => (DirectPointer.Allocate bm k).map fun p => (.dp p.1, p.2)
  | 2 => (SingleIndirectPointer.Allocate bm k).map fun p => (.sp p.1, p.2)
  | 3 => (DoubleIndirectPointer.Allocate bm k).map fun p => (.ddp p.1, p.2)
  | 4 => (TripleIndirectPointer.Allocate bm k).map fun p => (.tp p.1, p.2)
  | _ => none

/-- `FileHeader::Allocate(freeMap, fileSize)` (four-level filehdr.cc):
level selection, `numPointer` computation with its
`ASSERT(numPointer <= NUM_FILE_HEADER_POINTER)` (an abort, modelled as
`none` — see claim C1 for sizes where it trips), free-space pre-check,
top pointer sectors, child loop with chunk
`SECTOR_NUM_IN_LEVEL[level - 1]`, final `ASSERT(remainSector == 0)`. -/
def FileHeader.Allocate (bm : List Bool) (fileSize : Nat) :
    Option (FileHeader × List Bool) :=
  let numSectors := divRoundUp fileSize SectorSize
  (allocLevel fileSize).bind fun level =>
    let np := divRoundUp numSectors (SECTOR_NUM_IN_LEVEL.getD (level - 1) 0)
    if NUM_FILE_HEADER_POINTER < np then none
    else if numClear bm < np then none
    else
      (allocN np bm).bind fun q =>
        (allocLoop (DataPtr.AllocateByLevel level)
            (SECTOR_NUM_IN_LEVEL.getD (level - 1) 0) np q.2 numSectors).bind fun r =>
          if r.2.2 = 0 then
            some (⟨fileSize, np, padNat q.1 NUM_FILE_HEADER_POINTER, level, r.1⟩, r.2.1)
          else none

/-! ### Disk, serialization (WriteBack) and deserialization (FetchFrom)

A disk maps a sector number to the 32 ints of its sector
(`SectorSize / sizeof(int)`).  Every `WriteBack` builds a cache array
(after `memset(cache, -1, ...)`) and calls `WriteSector`; every
`FetchFrom` calls `ReadSector` and parses the cache. -/

/-- The simulated disk, at int granularity. -/
def Disk : Type := Nat → List Int

/-- `kernel->synchDisk->WriteSector(sectorNumber, cache)`. -/
def writeSector (d : Disk) (σ : Nat) (v : List Int) : Disk :=
  fun τ => if τ = σ then v else d τ

/-- Apply a list of `(sector, cache)` writes in order. -/
def writeList (d : Disk) : List (Nat × List Int) → Disk
  | [] => d
  | w :: ws => writeList (writeSector d w.1 w.2) ws

/-- Cache built by `DirectPointer::WriteBack`: `cache[0] = dataSector`,
rest `-1` from the memset. -/
def DirectPointer.serialize (p : DirectPointer) : List Int :=
  Int.ofNat p.dataSector :: List.replicate (NUM_INT_IN_SECTOR - 1) (-1)

/-- Cache built by `SingleIndirectPointer::WriteBack`:
`cache[0] = numPointer; cache[1+i] = pointerSectors[i]` for all
`i < NUM_INDIRECT_POINTER`. -/
def SingleIndirectPointer.serialize (p : SingleIndirectPointer) : List Int :=
  Int.ofNat p.numPointer :: p.pointerSectors.map Int.ofNat

/-- Cache built by `DoubleIndirectPointer::WriteBack` (same shape). -/
def DoubleIndirectPointer.serialize (p : DoubleIndirectPointer) : List Int :=
  Int.ofNat p.numPointer :: p.pointerSectors.map Int.ofNat

/-- Cache built by `TripleIndirectPointer::WriteBack` (same shape). -/
def TripleIndirectPointer.serialize (p : TripleIndirectPointer) : List Int :=
  Int.ofNat p.numPointer :: p.pointerSectors.map Int.ofNat

/-- Cache built by `FileHeader::WriteBack`:
`cache[0] = numBytes; cache[1] = numPointer; cache[2+i] = pointerSectors[i]`. -/
def FileHeader.serialize (h : FileHeader) : List Int :=
  Int.ofNat h.numBytes :: Int.ofNat h.numPointer :: h.pointerSectors.map Int.ofNat

/-- The `(sector, cache)` writes performed by `DirectPointer::WriteBack(σ)`. -/
def DirectPointer.writes (p : DirectPointer) (σ : Nat) : List (Nat × List Int) :=
  [(σ, p.serialize)]

/-- The writes of `SingleIndirectPointer::WriteBack(σ)` (no recursion: the
child loop is commented out in the active code). -/
def SingleIndirectPointer.writes (p : SingleIndirectPointer) (σ : Nat) :
    List (Nat × List Int) :=
  [(σ, p.serialize)]

/-- The writes of `DoubleIndirectPointer::WriteBack(σ)`: each live child at
`pointerSectors[i]` first (`for i < numPointer: table[i].WriteBack(...)`),
then the node's own sector. -/
def DoubleIndirectPointer.writes (p : DoubleIndirectPointer) (σ : Nat) :
    List (Nat × List Int) :=
  ((p.pointerSectors.take p.numPointer).zip p.table).flatMap
      (fun w => w.2.writes w.1) ++ [(σ, p.serialize)]

/-- The writes of `TripleIndirectPointer::WriteBack(σ)`. -/
def TripleIndirectPointer.writes (p : TripleIndirectPointer) (σ : Nat) :
    List (Nat × List Int) :=
  ((p.pointerSectors.take p.numPointer).zip p.table).flatMap
      (fun w => w.2.writes w.1) ++ [(σ, p.serialize)]

/-- Dispatch of `DataPointerInterface::WriteBack`. -/
def DataPtr.writes : DataPtr → Nat → List (Nat × List Int)
  | .dp p, σ => p.writes σ
  | .sp p, σ => p.writes σ
  | .ddp p, σ => p.writes σ
  | .tp p, σ => p.writes σ

/-- The writes of `FileHeader::WriteBack(σ)`: live children at their
pointer sectors, then the header cache at `σ`. -/
def FileHeader.writes (h : FileHeader) (σ : Nat) : List (Nat × List Int) :=
  ((h.pointerSectors.take h.numPointer).zip h.table).flatMap
      (fun w => w.2.writes w.1) ++ [(σ, h.serialize)]

/-- `FileHeader::WriteBack(sector)` as a disk transformer. -/
def FileHeader.WriteBack (h : FileHeader) (σ : Nat) (d : Disk) : Disk :=
  writeList d (h.writes σ)

/-- `DirectPointer::FetchFrom(σ)`: `dataSector = cache[0]`. -/
def DirectPointer.FetchFrom (d : Disk) (σ : Nat) : DirectPointer :=
  ⟨((d σ).getD 0 (-1)).toNat⟩

/-- `SingleIndirectPointer::FetchFrom(σ)`: `numPointer = cache[0]`,
`pointerSectors[i] = cache[1+i]` for `i < NUM_INDIRECT_POINTER`. -/
def SingleIndirectPointer.FetchFrom (d : Disk) (σ : Nat) : SingleIndirectPointer :=
  ⟨((d σ).getD 0 (-1)).toNat,
   (List.range NUM_INDIRECT_POINTER).map fun i => ((d σ).getD (1 + i) (-1)).toNat⟩

/-- `DoubleIndirectPointer::FetchFrom(σ)`: parse the node, then
`for i < numPointer: table[i].FetchFrom(pointerSectors[i])`. -/
def DoubleIndirectPointer.FetchFrom (d : Disk) (σ : Nat) : DoubleIndirectPointer :=
  let np := ((d σ).getD 0 (-1)).toNat
  let ptrs := (List.range NUM_INDIRECT_POINTER).map fun i => ((d σ).getD (1 + i) (-1)).toNat
  ⟨np, ptrs, (List.range np).map fun i => SingleIndirectPointer.FetchFrom d (ptrs.getD i 0)⟩

/-- `TripleIndirectPointer::FetchFrom(σ)`. -/
def TripleIndirectPointer.FetchFrom (d : Disk) (σ : Nat) : TripleIndirectPointer :=
  let np := ((d σ).getD 0 (-1)).toNat
  let ptrs := (List.range NUM_INDIRECT_POINTER).map fun i => ((d σ).getD (1 + i) (-1)).toNat
  ⟨np, ptrs, (List.range np).map fun i => DoubleIndirectPointer.FetchFrom d (ptrs.getD i 0)⟩

/-- `GetNewPointerByLevel(level)` followed by `FetchFrom`, as used by
`FileHeader::FetchFrom`.  A level outside 1–4 cannot reach the fetch
(`ASSERT(table[i] != nullptr)` aborts); the catch-all arm is a formal
placeholder for that unreachable abort. -/
def DataPtr.FetchByLevel (level : Nat) (d : Disk) (σ : Nat) : DataPtr :=
  match level with
  | 1 => .dp (DirectPointer.FetchFrom d σ)
  | 2 => .sp (SingleIndirectPointer.FetchFrom d σ)
  | 3 => .ddp (DoubleIndirectPointer.FetchFrom d σ)
  | 4 => .tp (TripleIndirectPointer.FetchFrom d σ)
  | _ => .dp ⟨0⟩

/-- `FileHeader::FetchFrom(sector)`: parse `numBytes`, `numPointer`,
`pointerSectors`; re-derive `level` from `numBytes` (the
`ASSERT(decideLevel)` abort for oversized `numBytes` is unreachable for
headers written by a successful `Allocate`); fetch the live children. -/
def FileHeader.FetchFrom (d : Disk) (σ : Nat) : FileHeader :=
  let numBytes := ((d σ).getD 0 (-1)).toNat
  let np := ((d σ).getD 1 (-1)).toNat
  let ptrs := (List.range NUM_FILE_HEADER_POINTER).map fun i => ((d σ).getD (2 + i) (-1)).toNat
  let level := (fetchLevel numBytes).getD 0
  ⟨numBytes, np, ptrs, level,
   (List.range np).map fun i => DataPtr.FetchByLevel level d (ptrs.getD i 0)⟩

/-! ### ByteToSector -/

/-- `DirectPointer::ByteToSector(offset)`: `ASSERT(offset <= SectorSize)`
then the single data sector. -/
def DirectPointer.ByteToSector (p : DirectPointer) (offset : Nat) : Option Nat :=
  if offset ≤ SectorSize then some p.dataSector else none

/-- `SingleIndirectPointer::ByteToSector(offset)`:
`pointerIndex = divRoundDown(offset, SIZE_IN_LEVEL[0])`,
`ASSERT(pointerIndex < NUM_INDIRECT_POINTER)`, return
`pointerSectors[pointerIndex]` (the sector numbers are data sectors; the
non-negativity `ASSERT` is vacuous in the `Nat` model). -/
def SingleIndirectPointer.ByteToSector (p : SingleIndirectPointer) (offset : Nat) :
    Option Nat :=
  let idx := divRoundDown offset (SIZE_IN_LEVEL.getD 0 0)
  if idx < NUM_INDIRECT_POINTER then some (p.pointerSectors.getD idx 0) else none

/-- `DoubleIndirectPointer::ByteToSector(offset)`: split by
`SIZE_IN_LEVEL[1]` and recurse into `table[pointerIndex]`.  An index at or
beyond `numPointer` reads an unallocated C++ child object; modelled as
`none`. -/
def DoubleIndirectPointer.ByteToSector (p : DoubleIndirectPointer) (offset : Nat) :
    Option Nat :=
  let idx := divRoundDown offset (SIZE_IN_LEVEL.getD 1 0)
  if idx < NUM_INDIRECT_POINTER then
    (p.table.get? idx).bind fun c => c.ByteToSector (offset % SIZE_IN_LEVEL.getD 1 0)
  else none

/-- `TripleIndirectPointer::ByteToSector(offset)`: split by
`SIZE_IN_LEVEL[2]` and recurse. -/
def TripleIndirectPointer.ByteToSector (p : TripleIndirectPointer) (offset : Nat) :
    Option Nat :=
  let idx := divRoundDown offset (SIZE_IN_LEVEL.getD 2 0)
  if idx < NUM_INDIRECT_POINTER then
    (p.table.get? idx).bind fun c => c.ByteToSector (offset % SIZE_IN_LEVEL.getD 2 0)
  else none

/-- Dispatch of `DataPointerInterface::ByteToSector`. -/
def DataPtr.ByteToSector : DataPtr → Nat → Option Nat
  | .dp p, o => p.ByteToSector o
  | .sp p, o => p.ByteToSector o
  | .ddp p, o => p.ByteToSector o
  | .tp p, o => p.ByteToSector o

/-- `FileHeader::ByteToSector(offset)`: split by `SIZE_IN_LEVEL[level-1]`,
`ASSERT(pointerIndex < NUM_FILE_HEADER_POINTER)`,
`ASSERT(table[pointerIndex] != nullptr)` (a `nullptr` slot is an absent
`table` entry, modelled as `none`), recurse. -/
def FileHeader.ByteToSector (h : FileHeader) (offset : Nat) : Option Nat :=
  let sz := SIZE_IN_LEVEL.getD (h.level - 1) 0
  let idx := divRoundDown offset sz
  if idx < NUM_FILE_HEADER_POINTER then
    (h.table.get? idx).bind fun c => c.ByteToSector (offset % sz)
  else none

/-! ### Well-formedness, allocated sectors and write footprints -/

/-- Shape invariant established by `SingleIndirectPointer::Allocate` and
preserved by serialization. -/
def SingleIndirectPointer.wf (p : SingleIndirectPointer) : Prop :=
  p.pointerSectors.length = NUM_INDIRECT_POINTER ∧ p.numPointer ≤ NUM_INDIRECT_POINTER

/-- Shape invariant for a double-indirect node: one live child per live
pointer slot. -/
def DoubleIndirectPointer.wf (p : DoubleIndirectPointer) : Prop :=
  p.pointerSectors.length = NUM_INDIRECT_POINTER ∧ p.numPointer ≤ NUM_INDIRECT_POINTER ∧
  p.table.length = p.numPointer ∧ ∀ c ∈ p.table, c.wf

/-- Shape invariant for a triple-indirect node. -/
def TripleIndirectPointer.wf (p : TripleIndirectPointer) : Prop :=
  p.pointerSectors.length = NUM_INDIRECT_POINTER ∧ p.numPointer ≤ NUM_INDIRECT_POINTER ∧
  p.table.length = p.numPointer ∧ ∀ c ∈ p.table, c.wf

/-- Dispatch of the shape invariant. -/
def DataPtr.wf : DataPtr → Prop
  | .dp _ => True
  | .sp p => p.wf
  | .ddp p => p.wf
  | .tp p => p.wf

/-- The level a variant implements (`GetNewPointerByLevel` inverse). -/
def DataPtr.levelOf : DataPtr → Nat
  | .dp _ => 1
  | .sp _ => 2
  | .ddp _ => 3
  | .tp _ => 4

/-- Shape invariant established by `FileHeader::Allocate`: array lengths,
live-slot count, a level consistent with `numBytes`, homogeneous children. -/
def FileHeader.wf (h : FileHeader) : Prop :=
  h.pointerSectors.length = NUM_FILE_HEADER_POINTER ∧
  h.numPointer ≤ NUM_FILE_HEADER_POINTER ∧
  h.table.length = h.numPointer ∧
  fetchLevel h.numBytes = some h.level ∧
  ∀ c ∈ h.table, c.wf ∧ c.levelOf = h.level

/-- Sectors acquired from the bitmap by `SingleIndirectPointer::Allocate`,
in allocation order (its pointer slots hold data sectors). -/
def SingleIndirectPointer.allocated (p : SingleIndirectPointer) : List Nat :=
  p.pointerSectors.take p.numPointer

/-- Sectors acquired by `DoubleIndirectPointer::Allocate`: its child-node
sectors first, then each child's data sectors. -/
def DoubleIndirectPointer.allocated (p : DoubleIndirectPointer) : List Nat :=
  p.pointerSectors.take p.numPointer ++ p.table.flatMap SingleIndirectPointer.allocated

/-- Sectors acquired by `TripleIndirectPointer::Allocate`. -/
def TripleIndirectPointer.allocated (p : TripleIndirectPointer) : List Nat :=
  p.pointerSectors.take p.numPointer ++ p.table.flatMap DoubleIndirectPointer.allocated

/-- Sectors acquired by a child allocation, per variant. -/
def DataPtr.allocated : DataPtr → List Nat
  | .dp p => [p.dataSector]
  | .sp p => p.allocated
  | .ddp p => p.allocated
  | .tp p => p.allocated

/-- Sectors acquired by `FileHeader::Allocate`: top pointer-node sectors,
then each child subtree's sectors. -/
def FileHeader.allocated (h : FileHeader) : List Nat :=
  h.pointerSectors.take h.numPointer ++ h.table.flatMap DataPtr.allocated

/-- Sectors written by a double-indirect `WriteBack` besides its own
(its live child-node sectors). -/
def DoubleIndirectPointer.fp (p : DoubleIndirectPointer) : List Nat :=
  p.pointerSectors.take p.numPointer

/-- Sectors written by a triple-indirect `WriteBack` besides its own. -/
def TripleIndirectPointer.fp (p : TripleIndirectPointer) : List Nat :=
  p.pointerSectors.take p.numPointer ++ p.table.flatMap DoubleIndirectPointer.fp

/-- Sectors a child's `WriteBack` writes besides the sector it is given
(direct and single-indirect nodes write only their own sector). -/
def DataPtr.fp : DataPtr → List Nat
  | .dp _ => []
  | .sp _ => []
  | .ddp p => p.fp
  | .tp p => p.fp

/-- Sectors `FileHeader::WriteBack(σ)` writes besides `σ` itself. -/
def FileHeader.fp (h : FileHeader) : List Nat :=
  h.pointerSectors.take h.numPointer ++ h.table.flatMap DataPtr.fp

/-! ## Directory (directory.h / directory.cc)

A C string argument is modelled as the list of its bytes before the NUL
terminator (so byte `i` of the string is `getD i 0`, matching both the
zero padding of `strncpy` and the terminator seen by `strncmp`).  The
`name[FileNameMaxLen + 1]` array of an entry is a raw 10-byte list whose
content beyond the copied bytes is whatever was there before
(indeterminate for a freshly constructed directory). -/

/-- `#define FILE_TYPE 1`. -/
def FILE_TYPE : Nat := 1

/-- `#define DIR_TYPE 2`. -/
def DIR_TYPE : Nat := 2

/-- `#define FileNameMaxLen 9`. -/
def FileNameMaxLen : Nat := 9

/-- `#define NumDirEntries 64`. -/
def NumDirEntries : Nat := 64

/-- One step of `strncmp(a, b, n) == 0` starting at byte `i` with `f`
bytes left to compare: unequal bytes → nonzero; equal NUL → zero; equal
non-NUL → continue. -/
def strncmpAux (a b : List Nat) : Nat → Nat → Bool
  | _, 0 => true
  | i, f + 1 =>
    if a.getD i 0 = b.getD i 0 then
      if a.getD i 0 = 0 then true else strncmpAux a b (i + 1) f
    else false

/-- `!strncmp(a, b, n)`: the comparison in `Directory::FindIndex`. -/
def strncmpIsZero (a b : List Nat) (n : Nat) : Bool := strncmpAux a b 0 n

/-- `strncpy(dest, src, n)` on a raw `dest` array: bytes below `n` become
the zero-extended source bytes (copy up to the NUL, then zero padding);
bytes from `n` on keep their previous content — in particular byte
`n = FileNameMaxLen` of a name array is never written. -/
def strncpyArr (dest src : List Nat) (n : Nat) : List Nat :=
  (List.range dest.length).map fun i => if i < n then src.getD i 0 else dest.getD i 0

/-- `class DirectoryEntry { bool inUse; int fileType; int sector;
char name[FileNameMaxLen + 1]; }`. -/
structure DirectoryEntry where
  inUse : Bool
  fileType : Nat
  sector : Nat
  name : List Nat
deriving DecidableEq, Repr

/-- Placeholder entry for `getD` lookups (indices are always in range on
the verified paths). -/
def dummyEntry : DirectoryEntry := ⟨false, 0, 0, []⟩

/-- `Directory::FindIndex(name)`: first `inUse` entry whose stored name
compares equal to `name` under `strncmp(..., FileNameMaxLen)`; `-1` when
absent. -/
def Directory.FindIndex (t : List DirectoryEntry) (name : List Nat) : Int :=
  match t.findIdx? (fun e => e.inUse && strncmpIsZero e.name name FileNameMaxLen) with
  | some i => Int.ofNat i
  | none => -1

/-- `Directory::Find(name)`: the matching entry's header sector, `-1` when
absent. -/
def Directory.Find (t : List DirectoryEntry) (name : List Nat) : Int :=
  match t.findIdx? (fun e => e.inUse && strncmpIsZero e.name name FileNameMaxLen) with
  | some i => Int.ofNat (t.getD i dummyEntry).sector
  | none => -1

/-- `Directory::IsDirectory(name)`: whether the matching entry has
`fileType == DIR_TYPE` (false when the name is absent). -/
def Directory.IsDirectory (t : List DirectoryEntry) (name : List Nat) : Bool :=
  match t.findIdx? (fun e => e.inUse && strncmpIsZero e.name name FileNameMaxLen) with
  | some i => (t.getD i dummyEntry).fileType == DIR_TYPE
  | none => false

/-- `Directory::Add(name, newSector, type)`: duplicate check via
`FindIndex`, then claim the first free slot, `strncpy` the name (bounded
by `FileNameMaxLen`, leaving byte 9 untouched), store sector and type.
`none` models the `FALSE` returns (duplicate, directory full), which
leave the table unmutated. -/
def Directory.Add (t : List DirectoryEntry) (name : List Nat) (newSector ty : Nat) :
    Option (List DirectoryEntry) :=
  if Directory.FindIndex t name ≠ -1 then none
  else
    match t.findIdx? (fun e => !e.inUse) with
    | none => none
    | some j =>
      some (t.set j
        ⟨true, ty, newSector, strncpyArr (t.getD j dummyEntry).name name FileNameMaxLen⟩)

/-- `Directory::Remove(name)`: mark the matching entry unused; `none`
models the `FALSE` return when the name is absent. -/
def Directory.Remove (t : List DirectoryEntry) (name : List Nat) :
    Option (List DirectoryEntry) :=
  match t.findIdx? (fun e => e.inUse && strncmpIsZero e.name name FileNameMaxLen) with
  | none => none
  | some i => some (t.set i { t.getD i dummyEntry with inUse := false })

/-- A directory mutation, for claim C8's operation sequences. -/
inductive DirOp where
  | add (name : List Nat) (sector ty : Nat)
  | remove (name : List Nat)

/-- The name argument an operation carries. -/
def DirOp.nameOf : DirOp → List Nat
  | .add n _ _ => n
  | .remove n => n

/-- Apply one operation; a failed `Add`/`Remove` returns `FALSE` without
mutating the table. -/
def applyDirOp (t : List DirectoryEntry) : DirOp → List DirectoryEntry
  | .add n s ty => (Directory.Add t n s ty).getD t
  | .remove n => (Directory.Remove t n).getD t

/-- Run a sequence of directory operations. -/
def runDirOps (t : List DirectoryEntry) (ops : List DirOp) : List DirectoryEntry :=
  ops.foldl applyDirOp t

/-- Zeros are terminal among the first `n` bytes (the shape `strncpy`
guarantees for the bytes it writes). -/
def cleanTo (a : List Nat) (n : Nat) : Prop :=
  ∀ i j, i ≤ j → j < n → a.getD i 0 = 0 → a.getD j 0 = 0

/-- No two in-use entries carry the same stored name (compared on the
`FileNameMaxLen` bytes `FindIndex` consults). -/
def namesDistinct (t : List DirectoryEntry) : Prop :=
  ∀ i ∈ List.range t.length, ∀ j ∈ List.range t.length, i ≠ j →
    (t.getD i dummyEntry).inUse = true → (t.getD j dummyEntry).inUse = true →
    ¬(∀ k ∈ List.range FileNameMaxLen,
        (t.getD i dummyEntry).name.getD k 0 = (t.getD j dummyEntry).name.getD k 0)

/-- Every in-use entry's stored name holds a NUL among the bytes the
comparison window can reach. -/
def namesTerminated (t : List DirectoryEntry) : Prop :=
  ∀ e ∈ t, e.inUse = true → ∃ k ∈ List.range FileNameMaxLen, e.name.getD k 0 = 0

/-- The structural part of the directory invariant: 10-byte name arrays,
zero-terminal stored names, pairwise-distinct in-use names. -/
def DirInvCore (t : List DirectoryEntry) : Prop :=
  (∀ e ∈ t, e.name.length = 10) ∧
  (∀ e ∈ t, e.inUse = true → cleanTo e.name FileNameMaxLen) ∧
  namesDistinct t

instance namesDistinctDec (t : List DirectoryEntry) : Decidable (namesDistinct t) := by
  unfold namesDistinct
  infer_instance

instance namesTerminatedDec (t : List DirectoryEntry) : Decidable (namesTerminated t) := by
  unfold namesTerminated
  infer_instance

/-- A freshly constructed directory for the C8 counterexample: the
constructor sets `inUse = FALSE` and leaves `name` indeterminate — here
every garbage byte is 1. -/
def c8Init : List DirectoryEntry :=
  List.replicate NumDirEntries ⟨false, 0, 0, List.replicate 10 1⟩

/-- The nine-character name "abcdefghi" (exactly `FileNameMaxLen` bytes). -/
def c8Name : List Nat := [97, 98, 99, 100, 101, 102, 103, 104, 105]

/-! ## FileSystem::CreateFile (filesys.cc) — on-disk effect

The on-disk state a `CreateFile` call can touch: the contents of the free
map file, the contents of the current (parent) directory file, and the
header sectors written by `hdr->WriteBack(sector)`.  All of
`CreateFile`'s disk writes (`hdr->WriteBack`, `currentDirectory->WriteBack`,
`freeMap->WriteBack`) sit in the single all-checks-passed branch; the
in-memory `freeMap` copy and the in-memory directory mutation on failure
paths are discarded without being written back. -/

structure FSDiskState where
  bmFile : List Bool
  dirFile : List DirectoryEntry
  hdrWrites : List (Nat × FileHeader)
deriving DecidableEq

/-- `FileSystem::CreateFile(name, initialSize)`: fetch the directory,
reject duplicates, `FindAndSet` a header sector, `Add` the entry,
`Allocate` the header, and only on success flush header, directory and
bitmap back to disk. -/
def FileSystem.CreateFile (st : FSDiskState) (name : List Nat) (initialSize : Nat) :
    Bool × FSDiskState :=
  let dir := st.dirFile
  if Directory.Find dir name ≠ -1 then (false, st)
  else
    match findAndSet st.bmFile with
    | none => (false, st)
    | some (sector, bm1) =>
      match Directory.Add dir name sector FILE_TYPE with
      | none => (false, st)
      | some dir1 =>
        match FileHeader.Allocate bm1 initialSize with
        | none => (false, st)
        | some (hdr, bm2) => (true, ⟨bm2, dir1, (sector, hdr) :: st.hdrWrites⟩)

/-- Failing state for the C2 witness: a full bitmap, so the header-sector
reservation fails. -/
def c2State : FSDiskState := ⟨[true, true], c8Init, []⟩

/-! ## Open-file table (filesys.h): `std::map<OpenFileId, OpenFile*> table`

Modelled as an association list with unique keys; a value of `none` is a
null `OpenFile*`.  `operator[]` value-initializes (inserts a null
pointer) when the key is absent; `std::map::insert` does nothing when the
key is already present. -/

abbrev OFTable := List (Int × Option Nat)

/-- `table[fd]` (std::map `operator[]`): returns the mapped pointer, and
inserts `fd ↦ nullptr` first when `fd` is absent. -/
def mapIndex (t : OFTable) (k : Int) : Option Nat × OFTable :=
  match t.find? (fun e => e.1 == k) with
  | some e => (e.2, t)
  | none => (none, t ++ [(k, none)])

/-- `table.insert({k, v})` (std::map `insert`): no effect when the key is
present. -/
def mapInsert (t : OFTable) (k : Int) (v : Option Nat) : OFTable :=
  if (t.find? (fun e => e.1 == k)).isSome then t else t ++ [(k, v)]

/-- `table.erase(k)`. -/
def mapErase (t : OFTable) (k : Int) : OFTable :=
  t.filter (fun e => !(e.1 == k))

/-- `FileSystem::ReadFile(buffer, size, fd)`: `table[fd]`, `-1` on a null
pointer, otherwise delegate to `OpenFile::Read` (abstracted as `rd`,
whose value is irrelevant here). -/
def FileSystem.ReadFile (rd : Nat → Int) (t : OFTable) (fd : Int) : Int × OFTable :=
  let p := mapIndex t fd
  match p.1 with
  | none => (-1, p.2)
  | some h => (rd h, p.2)

/-- `FileSystem::WriteFile(buffer, size, fd)`: same shape as `ReadFile`. -/
def FileSystem.WriteFile (wr : Nat → Int) (t : OFTable) (fd : Int) : Int × OFTable :=
  let p := mapIndex t fd
  match p.1 with
  | none => (-1, p.2)
  | some h => (wr h, p.2)

/-- `FileSystem::CloseFile(fd)`: `table[fd]`, `0` on a null pointer, else
delete the handle, erase the key and return `1`. -/
def FileSystem.CloseFile (t : OFTable) (fd : Int) : Int × OFTable :=
  let p := mapIndex t fd
  match p.1 with
  | none => (0, p.2)
  | some _ => (1, mapErase p.2 fd)

/-! ## Deallocation (four-level filehdr.cc)

`Deallocate` only clears bitmap bits; the `ASSERT(freeMap->Test(...))`
checks preceding each `Clear` are modelled as plain clears.  Note that
`DoubleIndirectPointer::Deallocate` and `TripleIndirectPointer::Deallocate`
recurse into their children but never clear their own `pointerSectors`
(the sectors holding the child nodes). -/

/-- `DirectPointer::Deallocate`. -/
def DirectPointer.Deallocate (p : DirectPointer) (bm : List Bool) : List Bool :=
  bmClear bm p.dataSector

/-- `SingleIndirectPointer::Deallocate`: clear the `numPointer` stored
data sectors. -/
def SingleIndirectPointer.Deallocate (p : SingleIndirectPointer) (bm : List Bool) :
    List Bool :=
  (p.pointerSectors.take p.numPointer).foldl bmClear bm

/-- `DoubleIndirectPointer::Deallocate`: only `table[i].Deallocate` — the
child-node sectors in `pointerSectors` are not cleared. -/
def DoubleIndirectPointer.Deallocate (p : DoubleIndirectPointer) (bm : List Bool) :
    List Bool :=
  p.table.foldl (fun b c => c.Deallocate b) bm

/-- `TripleIndirectPointer::Deallocate`: same shape as the double variant. -/
def TripleIndirectPointer.Deallocate (p : TripleIndirectPointer) (bm : List Bool) :
    List Bool :=
  p.table.foldl (fun b c => c.Deallocate b) bm

/-- Dispatch of `DataPointerInterface::Deallocate`. -/
def DataPtr.Deallocate : DataPtr → List Bool → List Bool
  | .dp p, bm => p.Deallocate bm
  | .sp p, bm => p.Deallocate bm
  | .ddp p, bm => p.Deallocate bm
  | .tp p, bm => p.Deallocate bm

/-- `FileHeader::Deallocate`: for each live slot, deallocate the child and
clear its pointer sector (live slots are exactly the first `numPointer`
for a header built by `Allocate`/`FetchFrom`; the remaining `table`
pointers are null). -/
def FileHeader.Deallocate (h : FileHeader) (bm : List Bool) : List Bool :=
  ((h.pointerSectors.take h.numPointer).zip h.table).foldl
    (fun b w => bmClear (w.2.Deallocate b) w.1) bm

/-! ## FileSystem path resolution, Remove and OpenAFile (filesys.cc)

The state carries the disk under its two layouts (`dirOf`: a sector's
bytes read as a directory table, `hdrOf`: read as a file header), the
on-disk free map, and the current-directory cursor
(`currentDirectoryFile`'s sector plus the fetched in-memory table). -/

/-- `#define DirectorySector 1`. -/
def DirectorySector : Nat := 1

structure FSys where
  dirOf : Nat → List DirectoryEntry
  hdrOf : Nat → FileHeader
  bm : List Bool
  cursor : Nat
  curDir : List DirectoryEntry

/-- `FileSystem::ResetToRootDirectory()`. -/
def FileSystem.ResetToRootDirectory (fs : FSys) : FSys :=
  { fs with cursor := DirectorySector, curDir := fs.dirOf DirectorySector }

/-- `FileSystem::ChangeCurrentDirectory(name)`: fetch the current
directory, look the name up (no directory-type check!), descend on
success.  The intervening `WriteBack` stores the just-fetched table, so
`dirOf` is unchanged. -/
def FileSystem.ChangeCurrentDirectory (fs : FSys) (name : List Nat) : Option FSys :=
  let cur := fs.dirOf fs.cursor
  let dirSector := Directory.Find cur name
  if dirSector = -1 then none
  else some { fs with cursor := dirSector.toNat, curDir := fs.dirOf dirSector.toNat }

/-- The resolution loop of `ChangeCurrentDirectoryByWholePath`:
`for (i = 0; i < pathLength - 1; i++) if (!ChangeCurrentDirectory(pathArr[i])) return false;`. -/
def walkDirs (fs : FSys) : List (List Nat) → Option FSys
  | [] => some fs
  | n :: rest => (FileSystem.ChangeCurrentDirectory fs n).bind (fun fs2 => walkDirs fs2 rest)

/-- `strtok(splitPath, "/")` tokenization: nonempty components between
slashes, as byte strings. -/
def splitPath (path : List Char) : List (List Nat) :=
  ((path.splitOn '/').filter (fun c => c ≠ [])).map (fun c => c.map Char.toNat)

/-- `FileSystem::ChangeCurrentDirectoryByWholePath(path, currentPath,
filename)`: reset to root, require a leading slash, walk all but the last
component, and hand back the leaf name (empty when the path has no
components). -/
def FileSystem.ChangeCurrentDirectoryByWholePath (fs : FSys) (path : List Char) :
    Option (FSys × List Nat) :=
  let fs0 := FileSystem.ResetToRootDirectory fs
  if path.head? ≠ some '/' then none
  else
    let comps := splitPath path
    (walkDirs fs0 comps.dropLast).map (fun fs1 => (fs1, (comps.getLast?).getD []))

/-- Depth bound for the spec-modelled recursive removal (a directory
chain cannot be longer than the disk). -/
def removeFuel : Nat := NumSectors

/-- Modelled from the spec: `Directory::RemoveRecursive(PersistentBitmap*)`
is declared in `directory.h` and invoked by `FileSystem::RemoveDir`, but
its definition is not among the sources (the `directory.cc` present holds
only an older draft with a different signature that frees nothing).
Following spec §4.5: for every in-use entry whose type is DIR, recursively
descend and remove; for every in-use entry, deallocate its header's
blocks (source-embedded `FileHeader::Deallocate`) and free its header
sector via the bitmap; then mark the entry unused and write the emptied
table back.  Recursion is fuel-bounded; disk directory trees are
shallower than `removeFuel`. -/
def removeRecursive (hdrOf : Nat → FileHeader) :
    Nat → (Nat → List DirectoryEntry) → List Bool → Nat →
      (Nat → List DirectoryEntry) × List Bool
  | 0, dirOf, bm, _ => (dirOf, bm)
  | fuel + 1, dirOf, bm, σ =>
    let res := (dirOf σ).foldl
      (fun acc e =>
        if e.inUse then
          let acc1 :=
            if e.fileType = DIR_TYPE then removeRecursive hdrOf fuel acc.1 acc.2 e.sector
            else acc
          let bm1 := FileHeader.Deallocate (hdrOf e.sector) acc1.2
          (acc1.1, bmClear bm1 e.sector)
        else acc)
      (dirOf, bm)
    (fun τ => if τ = σ then (dirOf σ).map (fun e => { e with inUse := false }) else res.1 τ,
     res.2)

/-- One entry step of the spec-modelled removal fold (the body of the
loop over the table). -/
def removeStep (hdrOf : Nat → FileHeader) (fuel : Nat)
    (acc : (Nat → List DirectoryEntry) × List Bool) (e : DirectoryEntry) :
    (Nat → List DirectoryEntry) × List Bool :=
  if e.inUse then
    let acc1 :=
      if e.fileType = DIR_TYPE then removeRecursive hdrOf fuel acc.1 acc.2 e.sector
      else acc
    let bm1 := FileHeader.Deallocate (hdrOf e.sector) acc1.2
    (acc1.1, bmClear bm1 e.sector)
  else acc

/-- `FileSystem::RemoveDir(sector, dirName)`: recursively remove the
subtree (spec-modelled `RemoveRecursive`), write the emptied table back,
deallocate the directory's own header, clear its header sector, remove
the entry from the parent, persist bitmap and parent directory. -/
def FileSystem.RemoveDir (fs : FSys) (sector : Nat) (name : List Nat) : FSys :=
  let rr := removeRecursive fs.hdrOf removeFuel fs.dirOf fs.bm sector
  let hdr := fs.hdrOf sector
  let bm2 := bmClear (hdr.Deallocate rr.2) sector
  let dir1 := (Directory.Remove fs.curDir name).getD fs.curDir
  { fs with
      bm := bm2
      curDir := dir1
      dirOf := fun τ => if τ = fs.cursor then dir1 else rr.1 τ }

/-- `FileSystem::RemoveFile(sector, fileName)`: fetch the header,
deallocate its blocks, clear the header sector, remove the entry from the
parent, persist bitmap and parent directory. -/
def FileSystem.RemoveFile (fs : FSys) (sector : Nat) (name : List Nat) : FSys :=
  let hdr := fs.hdrOf sector
  let bm2 := bmClear (hdr.Deallocate fs.bm) sector
  let dir1 := (Directory.Remove fs.curDir name).getD fs.curDir
  { fs with
      bm := bm2
      curDir := dir1
      dirOf := fun τ => if τ = fs.cursor then dir1 else fs.dirOf τ }

/-- `FileSystem::Remove(path)` (filesys.cc): when path resolution fails
the body is skipped and control falls through to
`ResetToRootDirectory(); return TRUE;` — there is no failure return on
that path.  The root-leaf and leaf-not-found branches `return FALSE`
directly, skipping the reset. -/
def FileSystem.Remove (fs : FSys) (path : List Char) : Bool × FSys :=
  match FileSystem.ChangeCurrentDirectoryByWholePath fs path with
  | none => (true, FileSystem.ResetToRootDirectory fs)
  | some (fs1, filename) =>
    if filename = [] then (false, fs1)
    else
      let sector := Directory.Find fs1.curDir filename
      if sector = -1 then (false, fs1)
      else
        let fs2 :=
          if Directory.IsDirectory fs1.curDir filename
          then FileSystem.RemoveDir fs1 sector.toNat filename
          else FileSystem.RemoveFile fs1 sector.toNat filename
        (true, FileSystem.ResetToRootDirectory fs2)

/-- `FileSystem::OpenAFile(path)` (filesys.cc): `int sector;` is
uninitialized; when path resolution fails, `sector` is never assigned and
the function returns its indeterminate value, modelled by the `junk`
parameter.  On a found leaf the handle is registered with
`table.insert({sector, openFile})` and the sector is returned. -/
def FileSystem.OpenAFile (junk : Int) (fs : FSys) (t : OFTable) (path : List Char) :
    Int × OFTable × FSys :=
  match FileSystem.ChangeCurrentDirectoryByWholePath fs path with
  | none => (junk, t, FileSystem.ResetToRootDirectory fs)
  | some (fs1, filename) =>
    let sector := Directory.Find fs1.curDir filename
    if 0 ≤ sector then
      (sector, mapInsert t sector (some sector.toNat), FileSystem.ResetToRootDirectory fs1)
    else (sector, t, FileSystem.ResetToRootDirectory fs1)

/-- A placeholder header view for sectors never read as headers. -/
def emptyHeader : FileHeader := ⟨0, 0, [], 0, []⟩

/-- State for the C4/C5 failing inputs: the root directory is empty
(freshly formatted), every sector reads as an empty table. -/
def c4FS : FSys :=
  ⟨fun _ => c8Init, fun _ => emptyHeader, List.replicate NumSectors false, 1, c8Init⟩

/-- Root table for the C9 failing input: one subdirectory `d` at
sector 5. -/
def c9Root : List DirectoryEntry :=
  (Directory.Add c8Init [100] 5 DIR_TYPE).getD []

/-- State for the C9 failing input: root holds `d` (sector 5); sector 5
is an empty directory. -/
def c9FS : FSys :=
  ⟨fun σ => if σ = 1 then c9Root else c8Init, fun _ => emptyHeader,
   List.replicate NumSectors false, 1, c9Root⟩

/-! ## Directory trees for the recursive-removal claim (C3)

A logical view of a directory subtree on disk: each node records its
header sector, the header stored there, and (for directories) the
subtrees of its in-use entries in table order. -/

mutual
inductive FTree where
  | file (sector : Nat) (hdr : FileHeader) : FTree
  | dir (sector : Nat) (hdr : FileHeader) (children : FForest) : FTree
inductive FForest where
  | nil : FForest
  | cons (hd : FTree) (tl : FForest) : FForest
end

/-- Whether a node is a directory. -/
def FTree.isDir : FTree → Bool
  | .file _ _ => false
  | .dir _ _ _ => true

/-- The header sector of a node. -/
def FTree.sectorOf : FTree → Nat
  | .file s _ => s
  | .dir s _ _ => s

/-- The header of a node. -/
def FTree.hdrOfNode : FTree → FileHeader
  | .file _ h => h
  | .dir _ h _ => h

mutual
/-- Every sector reachable through a node: its header sector, its
header's pointer and data sectors, and everything below. -/
def FTree.reachable : FTree → List Nat
  | .file s h => s :: h.allocated
  | .dir s h cs => s :: (h.allocated ++ FForest.reachable cs)
def FForest.reachable : FForest → List Nat
  | .nil => []
  | .cons c cs => c.reachable ++ cs.reachable
end

mutual
/-- The directory-table sectors of a subtree (the sectors the recursive
removal reads and rewrites). -/
def FTree.dirSectors : FTree → List Nat
  | .file _ _ => []
  | .dir s _ cs => s :: FForest.dirSectors cs
def FForest.dirSectors : FForest → List Nat
  | .nil => []
  | .cons c cs => c.dirSectors ++ cs.dirSectors
end

mutual
/-- Directory nesting depth (files are leaves; the removal recursion
consumes one unit of fuel per directory level). -/
def FTree.depth : FTree → Nat
  | .file _ _ => 0
  | .dir _ _ cs => FForest.depth cs + 1
def FForest.depth : FForest → Nat
  | .nil => 0
  | .cons c cs => max c.depth cs.depth
end

instance SingleWfDec (p : SingleIndirectPointer) : Decidable p.wf := by
  unfold SingleIndirectPointer.wf
  infer_instance

instance DoubleWfDec (p : DoubleIndirectPointer) : Decidable p.wf := by
  unfold DoubleIndirectPointer.wf
  infer_instance

instance TripleWfDec (p : TripleIndirectPointer) : Decidable p.wf := by
  unfold TripleIndirectPointer.wf
  infer_instance

instance DataPtrWfDec : (c : DataPtr) → Decidable c.wf
  | .dp _ => isTrue trivial
  | .sp p => inferInstanceAs (Decidable p.wf)
  | .ddp p => inferInstanceAs (Decidable p.wf)
  | .tp p => inferInstanceAs (Decidable p.wf)

instance FileHeaderWfDec (h : FileHeader) : Decidable h.wf := by
  unfold FileHeader.wf
  infer_instance

mutual
/-- Structural well-formedness of the headers in a subtree: each header
has the `Allocate` shape and level at most 2 — the only levels a header
allocatable on this 128-sector disk can have, and the levels on which
`FileHeader::Deallocate` frees the whole tree. -/
def FTree.okB : FTree → Bool
  | .file _ h => decide h.wf && decide (h.level ≤ 2)
  | .dir _ h cs => decide h.wf && decide (h.level ≤ 2) && FForest.okB cs
def FForest.okB : FForest → Bool
  | .nil => true
  | .cons c cs => c.okB && cs.okB
end

mutual
/-- The subtree is what the disk holds: the node's header is stored at
its sector, and (for directories) the in-use entries of the table at the
node's sector line up with the children — same order, matching sectors,
matching kinds. -/
def FTree.loadedB (dirOf : Nat → List DirectoryEntry) (hdrOf : Nat → FileHeader) :
    FTree → Bool
  | .file s h => decide (hdrOf s = h)
  | .dir s h cs =>
    decide (hdrOf s = h) &&
      FForest.childrenB dirOf hdrOf ((dirOf s).filter (fun e => e.inUse)) cs
def FForest.childrenB (dirOf : Nat → List DirectoryEntry) (hdrOf : Nat → FileHeader) :
    List DirectoryEntry → FForest → Bool
  | [], .nil => true
  | e :: es, .cons c cs =>
    decide (FTree.sectorOf c = e.sector) &&
      (decide (e.fileType = DIR_TYPE) == c.isDir) &&
      c.loadedB dirOf hdrOf && FForest.childrenB dirOf hdrOf es cs
  | _, _ => false
end

/-- File header for the C3 witness: a 100-byte level-1 file, pointer node
at sector 7, data at sector 8. -/
def c3FileHdr : FileHeader := ⟨100, 1, padNat [7] NUM_FILE_HEADER_POINTER, 1, [.dp ⟨8⟩]⟩

/-- Directory header for the C3 witness (no live pointers needed by the
claim's bookkeeping). -/
def c3DirHdr : FileHeader := ⟨1280, 0, padNat [] NUM_FILE_HEADER_POINTER, 1, []⟩

/-- Table of the witness subdirectory: one file `f` at sector 6. -/
def c3SubTable : List DirectoryEntry :=
  (Directory.Add c8Init [102] 6 FILE_TYPE).getD []

/-- Root table of the C3 witness: subdirectory `d` at sector 5. -/
def c3Root : List DirectoryEntry :=
  (Directory.Add c8Init [100] 5 DIR_TYPE).getD []

/-- The C3 witness subtree: directory at sector 5 holding one file. -/
def c3Tree : FTree := .dir 5 c3DirHdr (.cons (.file 6 c3FileHdr) .nil)

/-- The C3 witness state. -/
def c3FS : FSys :=
  ⟨fun σ => if σ = 1 then c3Root else if σ = 5 then c3SubTable else c8Init,
   fun σ => if σ = 5 then c3DirHdr else if σ = 6 then c3FileHdr else emptyHeader,
   List.replicate NumSectors true, 1, c3Root⟩

/-- Operation sequence for the C8 witness: two short adds and a remove. -/
def c8WitnessOps : List DirOp :=
  [.add [97, 98] 5 FILE_TYPE, .add [99, 100] 6 DIR_TYPE, .remove [97, 98]]

/-- Concrete bitmap for the round-trip witness: 8 free sectors. -/
def rtDemoBM : List Bool := List.replicate 8 false

/-- Concrete allocation for the round-trip witness: a 200-byte file
(level 1, two direct pointers). -/
def rtDemo : FileHeader × List Bool :=
  (FileHeader.Allocate rtDemoBM 200).getD (⟨0, 0, [], 0, []⟩, [])

/-! ### Bitmap allocation invariant -/

/-- Effect of an allocation phase on the bitmap: the acquired sectors are
pairwise distinct, were all free before, and exactly they have been newly
marked. -/
structure Alloc (bm bm' : List Bool) (out : List Nat) : Prop where
  nodup : out.Nodup
  free : ∀ s ∈ out, bmTest bm s = false
  after : ∀ s, bmTest bm' s = (bmTest bm s || decide (s ∈ out))
  len : bm'.length = bm.length

theorem Alloc.nil (bm : List Bool) : Alloc bm bm [] :=
  ⟨List.nodup_nil, by simp, by simp, rfl⟩

theorem Alloc.append {bm bm1 bm2 : List Bool} {o1 o2 : List Nat}
    (h1 : Alloc bm bm1 o1) (h2 : Alloc bm1 bm2 o2) : Alloc bm bm2 (o1 ++ o2) := by
  refine ⟨?_, ?_, ?_, h2.len.trans h1.len⟩
  · refine List.Nodup.append h1.nodup h2.nodup ?_
    intro s hs1 hs2
    have hfree := h2.free s hs2
    have := h1.after s
    rw [hfree] at this
    simp [hs1] at this
  · intro s hs
    rcases List.mem_append.mp hs with hs | hs
    · exact h1.free s hs
    · have hfree := h2.free s hs
      have := h1.after s
      rw [hfree] at this
      rcases Bool.or_eq_false_iff.mp this.symm with ⟨h, _⟩
      exact h
  · intro s
    rw [h2.after s, h1.after s]
    by_cases hs : s ∈ o1 <;> by_cases hs2 : s ∈ o2 <;>
      simp [hs, hs2, List.mem_append]

theorem findAndSet_spec {bm bm' : List Bool} {s : Nat}
    (h : findAndSet bm = some (s, bm')) :
    s < bm.length ∧ bmTest bm s = false ∧ bm' = bm.set s true := by
  induction bm generalizing s bm' with
  | nil => simp [findAndSet] at h
  | cons b rest ih =>
    by_cases hb : b
    · subst hb
      simp only [findAndSet, if_true, Option.map_eq_some'] at h
      obtain ⟨⟨s0, r0⟩, hrec, heq⟩ := h
      obtain ⟨h1, h2, h3⟩ := ih hrec
      cases heq
      refine ⟨by simpa using h1, ?_, ?_⟩
      · simpa [bmTest] using h2
      · simp [h3, List.set]
    · simp only [findAndSet, hb, if_false] at h
      cases h
      simp only [Bool.not_eq_true] at hb
      exact ⟨Nat.succ_pos _, by simp [bmTest, hb], by simp [List.set]⟩

theorem bmTest_set (bm : List Bool) (s : Nat) (hs : s < bm.length) (v : Bool) (x : Nat) :
    bmTest (bm.set s v) x = if x = s then v else bmTest bm x := by
  by_cases hx : x = s
  · subst hx
    simp [bmTest, List.getD_eq_getElem?_getD, List.getElem?_set_self, hs]
  · simp [bmTest, List.getD_eq_getElem?_getD, List.getElem?_set_ne (Ne.symm hx), hx]

theorem Alloc.one {bm bm' : List Bool} {s : Nat}
    (h : findAndSet bm = some (s, bm')) : Alloc bm bm' [s] := by
  obtain ⟨hlt, hfree, hset⟩ := findAndSet_spec h
  refine ⟨List.nodup_singleton s, by simpa using hfree, ?_, by simp [hset]⟩
  intro x
  subst hset
  rw [bmTest_set bm s hlt true x]
  by_cases hx : x = s <;> simp [hx, hfree]

theorem allocN_spec : ∀ {k : Nat} {bm bm' : List Bool} {out : List Nat},
    allocN k bm = some (out, bm') → Alloc bm bm' out ∧ out.length = k := by
  intro k
  induction k with
  | zero =>
    intro bm bm' out h
    simp only [allocN, Option.some.injEq] at h
    cases h
    exact ⟨Alloc.nil bm, rfl⟩
  | succ k ih =>
    intro bm bm' out h
    simp only [allocN, Option.bind_eq_some, Option.map_eq_some'] at h
    obtain ⟨⟨s, bm1⟩, hfs, ⟨o2, bm2⟩, hrec, heq⟩ := h
    cases heq
    obtain ⟨ha, hl⟩ := ih hrec
    exact ⟨(Alloc.one hfs).append ha, by simp [hl]⟩

/-! ### Generic disk-write lemmas -/

theorem writeList_notMem (d : Disk) : ∀ (ws : List (Nat × List Int)) (σ : Nat),
    σ ∉ ws.map Prod.fst → writeList d ws σ = d σ := by
  intro ws
  induction ws generalizing d with
  | nil => intro σ _; rfl
  | cons w rest ih =>
    intro σ hσ
    simp only [List.map_cons, List.mem_cons, not_or] at hσ
    rw [writeList, ih _ _ hσ.2]
    simp [writeSector, hσ.1]

theorem writeList_mem (d : Disk) : ∀ (ws : List (Nat × List Int)) (σ : Nat) (v : List Int),
    (ws.map Prod.fst).Nodup → (σ, v) ∈ ws → writeList d ws σ = v := by
  intro ws
  induction ws generalizing d with
  | nil => intro σ v _ hmem; simp at hmem
  | cons w rest ih =>
    intro σ v hnd hmem
    simp only [List.map_cons, List.nodup_cons] at hnd
    rcases List.mem_cons.mp hmem with heq | hmem2
    · subst heq
      rw [writeList, writeList_notMem _ _ _ hnd.1]
      simp [writeSector]
    · exact ih _ _ _ hnd.2 hmem2

/-! ### Allocator specifications: shape and bitmap effect -/

theorem padNat_length (l : List Nat) (n : Nat) (h : l.length ≤ n) :
    (padNat l n).length = n := by
  simp only [padNat, List.length_append, List.length_replicate]
  omega

theorem padNat_take (l : List Nat) (n : Nat) : (padNat l n).take l.length = l := by
  simp [padNat, List.take_left]

theorem divRoundUp_le_divRoundUp {a b : Nat} (c : Nat) (h : a ≤ b) :
    divRoundUp a c ≤ divRoundUp b c :=
  Nat.div_le_div_right (by omega)

theorem DirectPointer.Allocate_spec_dp {bm bm' : List Bool} {k : Nat} {p : DirectPointer}
    (h : DirectPointer.Allocate bm k = some (p, bm')) :
    Alloc bm bm' (DataPtr.allocated (.dp p)) := by
  by_cases hk : k = 1
  · subst hk
    rw [DirectPointer.Allocate, if_pos rfl] at h
    by_cases hc : numClear bm < 1
    · rw [if_pos hc] at h
      exact absurd h (by simp)
    · rw [if_neg hc, Option.map_eq_some'] at h
      obtain ⟨⟨s, bm1⟩, hfs, heq⟩ := h
      cases heq
      exact Alloc.one hfs
  · simp [DirectPointer.Allocate, hk] at h

theorem SingleIndirectPointer.Allocate_spec_sp {bm bm' : List Bool} {n : Nat}
    {p : SingleIndirectPointer}
    (h : SingleIndirectPointer.Allocate bm n = some (p, bm')) :
    p.wf ∧ p.numPointer = n ∧ Alloc bm bm' p.allocated := by
  simp only [SingleIndirectPointer.Allocate] at h
  split at h
  · exact absurd h (by simp)
  · split at h
    · exact absurd h (by simp)
    · rename_i hgt _
      rw [Option.map_eq_some'] at h
      obtain ⟨⟨out, bm1⟩, hrec, heq⟩ := h
      cases heq
      obtain ⟨halloc, hlen⟩ := allocN_spec hrec
      have hn : n ≤ NUM_INDIRECT_POINTER := by
        have : n ≤ LEVEL_1_SECTOR_NUM := Nat.le_of_not_lt hgt
        revert this
        norm_num [LEVEL_1_SECTOR_NUM, NUM_FILE_HEADER_POINTER, NUM_INDIRECT_POINTER,
          NUM_INT_IN_SECTOR, SectorSize]
        omega
      have htake : (padNat out NUM_INDIRECT_POINTER).take n = out := by
        rw [← hlen, padNat_take]
      refine ⟨⟨padNat_length _ _ (hlen ▸ hn), hn⟩, rfl, ?_⟩
      simpa [SingleIndirectPointer.allocated, htake] using halloc

theorem allocLoop_spec {α : Type} {W : α → Prop} {A : α → List Nat}
    {alloc : List Bool → Nat → Option (α × List Bool)} {chunk : Nat}
    (hspec : ∀ bm k x bm2, alloc bm k = some (x, bm2) → W x ∧ Alloc bm bm2 (A x)) :
    ∀ {n : Nat} {bm : List Bool} {remain : Nat} {cs : List α} {bm2 : List Bool} {r : Nat},
      allocLoop alloc chunk n bm remain = some (cs, bm2, r) →
      cs.length = n ∧ (∀ c ∈ cs, W c) ∧ Alloc bm bm2 (cs.flatMap A) := by
  intro n
  induction n with
  | zero =>
    intro bm remain cs bm2 r h
    simp only [allocLoop, Option.some.injEq] at h
    obtain ⟨h1, h2⟩ := Prod.mk.injEq .. ▸ h
    cases h
    exact ⟨rfl, by simp, Alloc.nil bm⟩
  | succ n ih =>
    intro bm remain cs bm2 r h
    simp only [allocLoop] at h
    split at h
    · exact absurd h (by simp)
    · rw [Option.bind_eq_some] at h
      obtain ⟨⟨x, bmx⟩, hx, h⟩ := h
      rw [Option.map_eq_some'] at h
      obtain ⟨⟨cs1, bm3, r3⟩, hrec, heq⟩ := h
      cases heq
      obtain ⟨hW, hA⟩ := hspec _ _ _ _ hx
      obtain ⟨hl, hws, halloc⟩ := ih hrec
      refine ⟨by simp [hl], ?_, ?_⟩
      · intro c hc
        rcases List.mem_cons.mp hc with rfl | hc
        · exact hW
        · exact hws c hc
      · simpa using hA.append halloc

theorem DoubleIndirectPointer.Allocate_spec_ddp {bm bm' : List Bool} {n : Nat}
    {p : DoubleIndirectPointer}
    (h : DoubleIndirectPointer.Allocate bm n = some (p, bm')) :
    p.wf ∧ Alloc bm bm' p.allocated := by
  simp only [DoubleIndirectPointer.Allocate] at h
  split at h
  · exact absurd h (by simp)
  · rename_i hle
    split at h
    · exact absurd h (by simp)
    · rw [Option.bind_eq_some] at h
      obtain ⟨⟨out, bm1⟩, hN, h⟩ := h
      rw [Option.bind_eq_some] at h
      obtain ⟨⟨cs, bm2, r⟩, hloop, h⟩ := h
      split at h
      · rename_i hr
        simp only [Option.some.injEq] at h
        cases h
        obtain ⟨hallocN, hlenN⟩ := allocN_spec hN
        obtain ⟨hcl, hcw, hcalloc⟩ :=
          allocLoop_spec (W := SingleIndirectPointer.wf)
            (A := SingleIndirectPointer.allocated)
            (fun bm k x bm2 hx =>
              ⟨(SingleIndirectPointer.Allocate_spec_sp hx).1,
               (SingleIndirectPointer.Allocate_spec_sp hx).2.2⟩) hloop
        have hnp : divRoundUp n LEVEL_1_SECTOR_NUM ≤ NUM_INDIRECT_POINTER := by
          have h930 : n ≤ LEVEL_2_SECTOR_NUM := Nat.le_of_not_lt hle
          have := divRoundUp_le_divRoundUp LEVEL_1_SECTOR_NUM h930
          revert this
          norm_num [LEVEL_1_SECTOR_NUM, LEVEL_2_SECTOR_NUM, NUM_FILE_HEADER_POINTER,
            NUM_INDIRECT_POINTER, NUM_INT_IN_SECTOR, SectorSize, divRoundUp]
        have htake : (padNat out NUM_INDIRECT_POINTER).take (divRoundUp n LEVEL_1_SECTOR_NUM)
            = out := by
          rw [← hlenN, padNat_take]
        refine ⟨⟨padNat_length _ _ (hlenN ▸ hnp), hnp, hcl, hcw⟩, ?_⟩
        simpa [DoubleIndirectPointer.allocated, htake] using hallocN.append hcalloc
      · exact absurd h (by simp)

theorem TripleIndirectPointer.Allocate_spec_tp {bm bm' : List Bool} {n : Nat}
    {p : TripleIndirectPointer}
    (h : TripleIndirectPointer.Allocate bm n = some (p, bm')) :
    p.wf ∧ Alloc bm bm' p.allocated := by
  simp only [TripleIndirectPointer.Allocate] at h
  split at h
  · exact absurd h (by simp)
  · rename_i hle
    split at h
    · exact absurd h (by simp)
    · rw [Option.bind_eq_some] at h
      obtain ⟨⟨out, bm1⟩, hN, h⟩ := h
      rw [Option.bind_eq_some] at h
      obtain ⟨⟨cs, bm2, r⟩, hloop, h⟩ := h
      split at h
      · rename_i hr
        simp only [Option.some.injEq] at h
        cases h
        obtain ⟨hallocN, hlenN⟩ := allocN_spec hN
        obtain ⟨hcl, hcw, hcalloc⟩ :=
          allocLoop_spec (W := DoubleIndirectPointer.wf)
            (A := DoubleIndirectPointer.allocated)
            (fun bm k x bm2 hx => DoubleIndirectPointer.Allocate_spec_ddp hx) hloop
        have hnp : divRoundUp n LEVEL_2_SECTOR_NUM ≤ NUM_INDIRECT_POINTER := by
          have h3 : n ≤ LEVEL_3_SECTOR_NUM := Nat.le_of_not_lt hle
          have := divRoundUp_le_divRoundUp LEVEL_2_SECTOR_NUM h3
          revert this
          norm_num [LEVEL_2_SECTOR_NUM, LEVEL_3_SECTOR_NUM, NUM_FILE_HEADER_POINTER,
            NUM_INDIRECT_POINTER, NUM_INT_IN_SECTOR, SectorSize, divRoundUp]
        have htake : (padNat out NUM_INDIRECT_POINTER).take (divRoundUp n LEVEL_2_SECTOR_NUM)
            = out := by
          rw [← hlenN, padNat_take]
        refine ⟨⟨padNat_length _ _ (hlenN ▸ hnp), hnp, hcl, hcw⟩, ?_⟩
        simpa [TripleIndirectPointer.allocated, htake] using hallocN.append hcalloc
      · exact absurd h (by simp)

theorem DataPtr.AllocateByLevel_spec {level : Nat} {bm bm' : List Bool} {k : Nat}
    {c : DataPtr}
    (h : DataPtr.AllocateByLevel level bm k = some (c, bm')) :
    c.wf ∧ c.levelOf = level ∧ Alloc bm bm' c.allocated := by
  match level, h with
  | 1, h => ?_
  | 2, h => ?_
  | 3, h => ?_
  | 4, h => ?_
  case _ =>
    simp only [DataPtr.AllocateByLevel, Option.map_eq_some'] at h
    obtain ⟨⟨p, bmp⟩, hp, heq⟩ := h
    cases heq
    exact ⟨trivial, rfl, DirectPointer.Allocate_spec_dp hp⟩
  case _ =>
    simp only [DataPtr.AllocateByLevel, Option.map_eq_some'] at h
    obtain ⟨⟨p, bmp⟩, hp, heq⟩ := h
    cases heq
    obtain ⟨hw, _, ha⟩ := SingleIndirectPointer.Allocate_spec_sp hp
    exact ⟨hw, rfl, ha⟩
  case _ =>
    simp only [DataPtr.AllocateByLevel, Option.map_eq_some'] at h
    obtain ⟨⟨p, bmp⟩, hp, heq⟩ := h
    cases heq
    obtain ⟨hw, ha⟩ := DoubleIndirectPointer.Allocate_spec_ddp hp
    exact ⟨hw, rfl, ha⟩
  case _ =>
    simp only [DataPtr.AllocateByLevel, Option.map_eq_some'] at h
    obtain ⟨⟨p, bmp⟩, hp, heq⟩ := h
    cases heq
    obtain ⟨hw, ha⟩ := TripleIndirectPointer.Allocate_spec_tp hp
    exact ⟨hw, rfl, ha⟩

theorem FileHeader.Allocate_spec_hdr {bm bm' : List Bool} {fileSize : Nat} {hd : FileHeader}
    (h : FileHeader.Allocate bm fileSize = some (hd, bm')) :
    hd.wf ∧ Alloc bm bm' hd.allocated ∧ hd.numBytes = fileSize := by
  simp only [FileHeader.Allocate, Option.bind_eq_some] at h
  obtain ⟨level, hlv, h⟩ := h
  split at h
  · exact absurd h (by simp)
  · rename_i hnp30
    split at h
    · exact absurd h (by simp)
    · rw [Option.bind_eq_some] at h
      obtain ⟨⟨out, bm1⟩, hN, h⟩ := h
      rw [Option.bind_eq_some] at h
      obtain ⟨⟨cs, bm2, r⟩, hloop, h⟩ := h
      split at h
      · simp only [Option.some.injEq] at h
        cases h
        obtain ⟨hallocN, hlenN⟩ := allocN_spec hN
        obtain ⟨hcl, hcw, hcalloc⟩ :=
          allocLoop_spec (W := fun c => DataPtr.wf c ∧ DataPtr.levelOf c = level)
            (A := DataPtr.allocated)
            (fun bm k x bm2 hx =>
              ⟨⟨(DataPtr.AllocateByLevel_spec hx).1, (DataPtr.AllocateByLevel_spec hx).2.1⟩,
               (DataPtr.AllocateByLevel_spec hx).2.2⟩) hloop
        have hnp : divRoundUp (divRoundUp fileSize SectorSize)
            (SECTOR_NUM_IN_LEVEL.getD (level - 1) 0) ≤ NUM_FILE_HEADER_POINTER :=
          Nat.le_of_not_lt hnp30
        have htake : (padNat out NUM_FILE_HEADER_POINTER).take
            (divRoundUp (divRoundUp fileSize SectorSize)
              (SECTOR_NUM_IN_LEVEL.getD (level - 1) 0)) = out := by
          rw [← hlenN, padNat_take]
        refine ⟨⟨padNat_length _ _ (hlenN ▸ hnp), hnp, hcl, ?_, ?_⟩, ?_, rfl⟩
        · show fetchLevel fileSize = some level
          exact hlv
        · intro c hc
          exact ⟨(hcw c hc).1, (hcw c hc).2⟩
        · show Alloc bm bm' (FileHeader.allocated _)
          simp only [FileHeader.allocated]
          rw [htake]
          exact hallocN.append hcalloc
      · exact absurd h (by simp)

/-! ### Footprints sit inside the allocated sectors -/

theorem flatMap_sublist {α β : Type} {l : List α} {f g : α → List β}
    (h : ∀ x ∈ l, List.Sublist (f x) (g x)) :
    List.Sublist (l.flatMap f) (l.flatMap g) := by
  induction l with
  | nil => simp
  | cons x xs ih =>
    simp only [List.flatMap_cons]
    exact List.Sublist.append (h x (by simp)) (ih fun y hy => h y (by simp [hy]))

theorem DoubleIndirectPointer.fp_sublist_ddp (p : DoubleIndirectPointer) :
    List.Sublist p.fp p.allocated :=
  List.sublist_append_left _ _

theorem TripleIndirectPointer.fp_sublist_tp (p : TripleIndirectPointer) :
    List.Sublist p.fp p.allocated :=
  List.Sublist.append (List.Sublist.refl _)
    (flatMap_sublist fun c _ => DoubleIndirectPointer.fp_sublist_ddp c)

theorem DataPtr.fp_sublist_c (c : DataPtr) : List.Sublist c.fp c.allocated := by
  cases c with
  | dp p => exact List.nil_sublist _
  | sp p => exact List.nil_sublist _
  | ddp p => exact DoubleIndirectPointer.fp_sublist_ddp p
  | tp p => exact TripleIndirectPointer.fp_sublist_tp p

theorem FileHeader.fp_sublist_hdr (h : FileHeader) : List.Sublist h.fp h.allocated :=
  List.Sublist.append (List.Sublist.refl _)
    (flatMap_sublist fun c _ => DataPtr.fp_sublist_c c)

/-! ### Addresses written by WriteBack -/

theorem flatMap_perm_pointwise {α β : Type} {l : List α} {f g : α → List β}
    (h : ∀ x ∈ l, (f x).Perm (g x)) : (l.flatMap f).Perm (l.flatMap g) := by
  induction l with
  | nil => simp
  | cons x xs ih =>
    simp only [List.flatMap_cons]
    exact (h x (by simp)).append (ih fun y hy => h y (by simp [hy]))

theorem zipWrites_perm {γ : Type} (wr : γ → Nat → List (Nat × List Int))
    (fp : γ → List Nat) :
    ∀ (as : List Nat) (cs : List γ), as.length = cs.length →
      (∀ w ∈ as.zip cs, ((wr w.2 w.1).map Prod.fst).Perm (w.1 :: fp w.2)) →
      (((as.zip cs).flatMap (fun w => wr w.2 w.1)).map Prod.fst).Perm
        (as ++ cs.flatMap fp) := by
  intro as
  induction as with
  | nil =>
    intro cs hlen _
    cases cs with
    | nil => simp
    | cons c cs => simp at hlen
  | cons a as ih =>
    intro cs hlen hpw
    cases cs with
    | nil => simp at hlen
    | cons c cs =>
      simp only [List.zip_cons_cons, List.flatMap_cons, List.map_append]
      have h1 := hpw (a, c) (by simp)
      have h2 := ih cs (by simpa using hlen) (fun w hw => hpw w (by simp [hw]))
      refine (h1.append h2).trans ?_
      simp only [List.cons_append]
      refine List.Perm.cons a ?_
      rw [← List.append_assoc, ← List.append_assoc]
      exact (List.perm_append_comm).append_right _

theorem flatMap_const_nil {α β : Type} (l : List α) :
    (l.flatMap fun _ => ([] : List β)) = [] := by
  induction l with
  | nil => rfl
  | cons x xs ih => simp [ih]

theorem DoubleIndirectPointer.writes_fst_perm_ddp (p : DoubleIndirectPointer) (σ : Nat)
    (hwf : p.wf) : ((p.writes σ).map Prod.fst).Perm (σ :: p.fp) := by
  obtain ⟨hlen, hnp, htab, _⟩ := hwf
  have hlen2 : (p.pointerSectors.take p.numPointer).length = p.table.length := by
    rw [List.length_take, hlen, htab]
    omega
  have hz := zipWrites_perm SingleIndirectPointer.writes (fun _ => ([] : List Nat))
      (p.pointerSectors.take p.numPointer) p.table hlen2
      (fun w _ => List.Perm.refl _)
  have hz2 : ((((p.pointerSectors.take p.numPointer).zip p.table).flatMap
      (fun w => SingleIndirectPointer.writes w.2 w.1)).map Prod.fst).Perm
      (p.pointerSectors.take p.numPointer) := by
    simpa [flatMap_const_nil] using hz
  simp only [DoubleIndirectPointer.writes, List.map_append, List.map_cons, List.map_nil]
  exact ((hz2.append_right [σ]).trans (List.perm_append_singleton σ _))

theorem TripleIndirectPointer.writes_fst_perm_tp (p : TripleIndirectPointer) (σ : Nat)
    (hwf : p.wf) : ((p.writes σ).map Prod.fst).Perm (σ :: p.fp) := by
  obtain ⟨hlen, hnp, htab, hcw⟩ := hwf
  have hlen2 : (p.pointerSectors.take p.numPointer).length = p.table.length := by
    rw [List.length_take, hlen, htab]
    omega
  have hz := zipWrites_perm DoubleIndirectPointer.writes DoubleIndirectPointer.fp
      (p.pointerSectors.take p.numPointer) p.table hlen2
      (fun w hw => DoubleIndirectPointer.writes_fst_perm_ddp w.2 w.1 (hcw w.2 (List.of_mem_zip hw).2))
  simp only [TripleIndirectPointer.writes, List.map_append, List.map_cons, List.map_nil]
  exact ((hz.append_right [σ]).trans (List.perm_append_singleton σ _))

theorem DataPtr.writes_fst_perm_c (c : DataPtr) (σ : Nat) (hwf : c.wf) :
    ((c.writes σ).map Prod.fst).Perm (σ :: c.fp) := by
  cases c with
  | dp p => exact List.Perm.refl _
  | sp p => exact List.Perm.refl _
  | ddp p => exact DoubleIndirectPointer.writes_fst_perm_ddp p σ hwf
  | tp p => exact TripleIndirectPointer.writes_fst_perm_tp p σ hwf

theorem FileHeader.writes_fst_perm_hdr (h : FileHeader) (σ : Nat) (hwf : h.wf) :
    ((h.writes σ).map Prod.fst).Perm (σ :: h.fp) := by
  obtain ⟨hlen, hnp, htab, _, hcw⟩ := hwf
  have hlen2 : (h.pointerSectors.take h.numPointer).length = h.table.length := by
    rw [List.length_take, hlen, htab]
    omega
  have hz := zipWrites_perm DataPtr.writes DataPtr.fp
      (h.pointerSectors.take h.numPointer) h.table hlen2
      (fun w hw => DataPtr.writes_fst_perm_c w.2 w.1 (hcw w.2 (List.of_mem_zip hw).2).1)
  simp only [FileHeader.writes, List.map_append, List.map_cons, List.map_nil]
  exact ((hz.append_right [σ]).trans (List.perm_append_singleton σ _))

/-! ### FetchFrom inverts WriteBack on disjoint footprints -/

theorem getD_map_ofNat (l : List Nat) (i : Nat) (hi : i < l.length) :
    (l.map Int.ofNat).getD i (-1) = Int.ofNat (l.getD i 0) := by
  rw [List.getD_eq_getElem _ _ (by simpa using hi), List.getD_eq_getElem _ _ hi,
    List.getElem_map]

theorem zip_mem_of_getElem {α : Type} {l1 : List Nat} {l2 : List α} {i : Nat}
    (h1 : i < l1.length) (h2 : i < l2.length) :
    (l1[i], l2[i]) ∈ l1.zip l2 := by
  have hz : i < (l1.zip l2).length := by
    rw [List.length_zip]
    omega
  have hz2 : (l1.zip l2)[i] = (l1[i], l2[i]) := List.getElem_zip
  rw [← hz2]
  exact List.getElem_mem hz

theorem SingleIndirectPointer.parse_serialize (p : SingleIndirectPointer) (hwf : p.wf)
    (d : Disk) (σ : Nat) (hσ : d σ = p.serialize) :
    SingleIndirectPointer.FetchFrom d σ = p := by
  obtain ⟨hlen, hnp⟩ := hwf
  cases p with
  | mk np ptrs =>
    simp only [SingleIndirectPointer.FetchFrom, hσ, SingleIndirectPointer.serialize,
      SingleIndirectPointer.mk.injEq]
    refine ⟨by simp, ?_⟩
    refine List.ext_getElem (by simp [hlen]) ?_
    intro i h1 h2
    rw [List.getElem_map, List.getElem_range, Nat.add_comm 1 i]
    show (((ptrs.map Int.ofNat).getD i (-1))).toNat = ptrs[i]
    rw [getD_map_ofNat _ _ h2, List.getD_eq_getElem _ _ h2]
    rfl

theorem serialize_mem_writes_double (p : DoubleIndirectPointer) (σ : Nat) :
    (σ, p.serialize) ∈ p.writes σ :=
  List.mem_append_right _ (by simp)

theorem child_mem_writes_double (p : DoubleIndirectPointer) (σ : Nat) {i : Nat}
    (hi : i < p.numPointer) (hlen : p.pointerSectors.length = NUM_INDIRECT_POINTER)
    (hnp : p.numPointer ≤ NUM_INDIRECT_POINTER) (htab : p.table.length = p.numPointer) :
    (p.pointerSectors.getD i 0, (p.table.get ⟨i, by omega⟩).serialize) ∈ p.writes σ := by
  have hlt : i < (p.pointerSectors.take p.numPointer).length := by
    rw [List.length_take, hlen]
    omega
  have hgd : p.pointerSectors.getD i 0 = (p.pointerSectors.take p.numPointer)[i] := by
    rw [List.getElem_take, List.getD_eq_getElem _ _ (by omega)]
  refine List.mem_append_left _ ?_
  rw [List.mem_flatMap]
  refine ⟨((p.pointerSectors.take p.numPointer)[i], p.table.get ⟨i, by omega⟩), ?_, ?_⟩
  · exact zip_mem_of_getElem hlt (by omega)
  · rw [hgd]
    simp [SingleIndirectPointer.writes]

theorem DoubleIndirectPointer.fetch_writeList_ddp {ws : List (Nat × List Int)} (d : Disk)
    (p : DoubleIndirectPointer) (σ : Nat)
    (hnd : (ws.map Prod.fst).Nodup)
    (hsub : ∀ w ∈ p.writes σ, w ∈ ws)
    (hwf : p.wf) :
    DoubleIndirectPointer.FetchFrom (writeList d ws) σ = p := by
  obtain ⟨hlen, hnp, htab, hcw⟩ := hwf
  have hown : writeList d ws σ = p.serialize :=
    writeList_mem d ws σ _ hnd (hsub _ (serialize_mem_writes_double p σ))
  have hnpE : ((writeList d ws σ).getD 0 (-1)).toNat = p.numPointer := by
    rw [hown]
    simp [DoubleIndirectPointer.serialize]
  have hptrsE : (List.range NUM_INDIRECT_POINTER).map
      (fun i => ((writeList d ws σ).getD (1 + i) (-1)).toNat) = p.pointerSectors := by
    refine List.ext_getElem (by simp [hlen]) ?_
    intro i h1 h2
    rw [List.getElem_map, List.getElem_range, hown, Nat.add_comm 1 i]
    show (((p.pointerSectors.map Int.ofNat).getD i (-1))).toNat = p.pointerSectors[i]
    rw [getD_map_ofNat _ _ h2, List.getD_eq_getElem _ _ h2]
    rfl
  cases p with
  | mk np ptrs table =>
    simp only [DoubleIndirectPointer.FetchFrom, hnpE, hptrsE,
      DoubleIndirectPointer.mk.injEq]
    refine ⟨trivial, trivial, ?_⟩
    refine List.ext_getElem (by simpa using htab.symm) ?_
    intro i h1 h2
    rw [List.getElem_map, List.getElem_range]
    have hi : i < np := by simpa using h1
    refine SingleIndirectPointer.parse_serialize _ (hcw _ (List.getElem_mem h2)) _ _ ?_
    exact writeList_mem d ws _ _ hnd
      (hsub _ (child_mem_writes_double ⟨np, ptrs, table⟩ σ hi hlen hnp htab))

theorem serialize_mem_writes_triple (p : TripleIndirectPointer) (σ : Nat) :
    (σ, p.serialize) ∈ p.writes σ :=
  List.mem_append_right _ (by simp)

theorem child_writes_sub_triple (p : TripleIndirectPointer) (σ : Nat) {i : Nat}
    (hi : i < p.numPointer) (hlen : p.pointerSectors.length = NUM_INDIRECT_POINTER)
    (hnp : p.numPointer ≤ NUM_INDIRECT_POINTER) (htab : p.table.length = p.numPointer) :
    ∀ w ∈ (p.table.get ⟨i, by omega⟩).writes (p.pointerSectors.getD i 0), w ∈ p.writes σ := by
  intro w hw
  have hlt : i < (p.pointerSectors.take p.numPointer).length := by
    rw [List.length_take, hlen]
    omega
  have hgd : p.pointerSectors.getD i 0 = (p.pointerSectors.take p.numPointer)[i] := by
    rw [List.getElem_take, List.getD_eq_getElem _ _ (by omega)]
  refine List.mem_append_left _ ?_
  rw [List.mem_flatMap]
  refine ⟨((p.pointerSectors.take p.numPointer)[i], p.table.get ⟨i, by omega⟩), ?_, ?_⟩
  · exact zip_mem_of_getElem hlt (by omega)
  · rw [← hgd]
    exact hw

theorem TripleIndirectPointer.fetch_writeList_tp {ws : List (Nat × List Int)} (d : Disk)
    (p : TripleIndirectPointer) (σ : Nat)
    (hnd : (ws.map Prod.fst).Nodup)
    (hsub : ∀ w ∈ p.writes σ, w ∈ ws)
    (hwf : p.wf) :
    TripleIndirectPointer.FetchFrom (writeList d ws) σ = p := by
  obtain ⟨hlen, hnp, htab, hcw⟩ := hwf
  have hown : writeList d ws σ = p.serialize :=
    writeList_mem d ws σ _ hnd (hsub _ (serialize_mem_writes_triple p σ))
  have hnpE : ((writeList d ws σ).getD 0 (-1)).toNat = p.numPointer := by
    rw [hown]
    simp [TripleIndirectPointer.serialize]
  have hptrsE : (List.range NUM_INDIRECT_POINTER).map
      (fun i => ((writeList d ws σ).getD (1 + i) (-1)).toNat) = p.pointerSectors := by
    refine List.ext_getElem (by simp [hlen]) ?_
    intro i h1 h2
    rw [List.getElem_map, List.getElem_range, hown, Nat.add_comm 1 i]
    show (((p.pointerSectors.map Int.ofNat).getD i (-1))).toNat = p.pointerSectors[i]
    rw [getD_map_ofNat _ _ h2, List.getD_eq_getElem _ _ h2]
    rfl
  cases p with
  | mk np ptrs table =>
    simp only [TripleIndirectPointer.FetchFrom, hnpE, hptrsE,
      TripleIndirectPointer.mk.injEq]
    refine ⟨trivial, trivial, ?_⟩
    refine List.ext_getElem (by simpa using htab.symm) ?_
    intro i h1 h2
    rw [List.getElem_map, List.getElem_range]
    have hi : i < np := by simpa using h1
    refine DoubleIndirectPointer.fetch_writeList_ddp d _ _ hnd ?_ (hcw _ (List.getElem_mem h2))
    intro w hw
    exact hsub _ (child_writes_sub_triple ⟨np, ptrs, table⟩ σ hi hlen hnp htab w hw)

theorem DataPtr.fetch_writeList_c {ws : List (Nat × List Int)} (d : Disk)
    (c : DataPtr) (σ : Nat)
    (hnd : (ws.map Prod.fst).Nodup)
    (hsub : ∀ w ∈ c.writes σ, w ∈ ws)
    (hwf : c.wf) :
    DataPtr.FetchByLevel c.levelOf (writeList d ws) σ = c := by
  cases c with
  | dp p =>
    have hown : writeList d ws σ = p.serialize :=
      writeList_mem d ws σ _ hnd (hsub _ (by simp [DataPtr.writes, DirectPointer.writes]))
    simp [DataPtr.FetchByLevel, DataPtr.levelOf, DirectPointer.FetchFrom, hown,
      DirectPointer.serialize]
  | sp p =>
    have hown : writeList d ws σ = p.serialize :=
      writeList_mem d ws σ _ hnd
        (hsub _ (by simp [DataPtr.writes, SingleIndirectPointer.writes]))
    simp only [DataPtr.FetchByLevel, DataPtr.levelOf]
    rw [SingleIndirectPointer.parse_serialize p hwf _ σ hown]
  | ddp p =>
    simp only [DataPtr.FetchByLevel, DataPtr.levelOf]
    rw [DoubleIndirectPointer.fetch_writeList_ddp d p σ hnd hsub hwf]
  | tp p =>
    simp only [DataPtr.FetchByLevel, DataPtr.levelOf]
    rw [TripleIndirectPointer.fetch_writeList_tp d p σ hnd hsub hwf]

theorem serialize_mem_writes_header (h : FileHeader) (σ : Nat) :
    (σ, h.serialize) ∈ h.writes σ :=
  List.mem_append_right _ (by simp)

theorem child_writes_sub_header (h : FileHeader) (σ : Nat) {i : Nat}
    (hi : i < h.numPointer) (hlen : h.pointerSectors.length = NUM_FILE_HEADER_POINTER)
    (hnp : h.numPointer ≤ NUM_FILE_HEADER_POINTER) (htab : h.table.length = h.numPointer) :
    ∀ w ∈ (h.table.get ⟨i, by omega⟩).writes (h.pointerSectors.getD i 0), w ∈ h.writes σ := by
  intro w hw
  have hlt : i < (h.pointerSectors.take h.numPointer).length := by
    rw [List.length_take, hlen]
    omega
  have hgd : h.pointerSectors.getD i 0 = (h.pointerSectors.take h.numPointer)[i] := by
    rw [List.getElem_take, List.getD_eq_getElem _ _ (by omega)]
  refine List.mem_append_left _ ?_
  rw [List.mem_flatMap]
  refine ⟨((h.pointerSectors.take h.numPointer)[i], h.table.get ⟨i, by omega⟩), ?_, ?_⟩
  · exact zip_mem_of_getElem hlt (by omega)
  · rw [← hgd]
    exact hw

theorem FileHeader.FetchFrom_WriteBack (h : FileHeader) (σ : Nat) (d : Disk)
    (hwf : h.wf) (hnd : (σ :: h.fp).Nodup) :
    FileHeader.FetchFrom (FileHeader.WriteBack h σ d) σ = h := by
  have hndw : ((h.writes σ).map Prod.fst).Nodup :=
    ((FileHeader.writes_fst_perm_hdr h σ hwf).nodup_iff).mpr hnd
  obtain ⟨hlen, hnp, htab, hlv, hcw⟩ := hwf
  have hown : writeList d (h.writes σ) σ = h.serialize :=
    writeList_mem d _ σ _ hndw (serialize_mem_writes_header h σ)
  have hbytesE : ((writeList d (h.writes σ) σ).getD 0 (-1)).toNat = h.numBytes := by
    rw [hown]
    simp [FileHeader.serialize]
  have hnpE : ((writeList d (h.writes σ) σ).getD 1 (-1)).toNat = h.numPointer := by
    rw [hown]
    simp [FileHeader.serialize]
  have hptrsE : (List.range NUM_FILE_HEADER_POINTER).map
      (fun i => ((writeList d (h.writes σ) σ).getD (2 + i) (-1)).toNat)
      = h.pointerSectors := by
    refine List.ext_getElem (by simp [hlen]) ?_
    intro i h1 h2
    rw [List.getElem_map, List.getElem_range, hown, Nat.add_comm 2 i]
    show (((h.pointerSectors.map Int.ofNat).getD i (-1))).toNat = h.pointerSectors[i]
    rw [getD_map_ofNat _ _ h2, List.getD_eq_getElem _ _ h2]
    rfl
  cases h with
  | mk numBytes np ptrs level table =>
    simp only [FileHeader.WriteBack] at *
    simp only [FileHeader.FetchFrom, hbytesE, hnpE, hptrsE, hlv, Option.getD_some,
      FileHeader.mk.injEq]
    refine ⟨trivial, trivial, trivial, trivial, ?_⟩
    refine List.ext_getElem (by simpa using htab.symm) ?_
    intro i h1 h2
    rw [List.getElem_map, List.getElem_range]
    have hi : i < np := by simpa using h1
    have hclv : (table[i]).levelOf = level := (hcw _ (List.getElem_mem h2)).2
    rw [← hclv]
    refine DataPtr.fetch_writeList_c d _ _ hndw ?_ (hcw _ (List.getElem_mem h2)).1
    intro w hw
    exact child_writes_sub_header ⟨numBytes, np, ptrs, level, table⟩ σ hi hlen hnp htab w hw

/-- Claim C6: for every allocatable file size `s`, writing a freshly
allocated header back to a sector `σ` outside its write footprint and
fetching it from that sector yields a header whose `ByteToSector` agrees
with the original on every offset in `[0, s)` (in fact the whole in-memory
header round-trips).  The footprint hypothesis mirrors `CreateFile`, which
draws `σ` from the same bitmap before `Allocate` runs. -/
theorem C6_header_roundtrip {bm bm' : List Bool} {s : Nat} {h : FileHeader} {σ : Nat}
    (d : Disk) (halloc : FileHeader.Allocate bm s = some (h, bm'))
    (hfresh : σ ∉ h.fp) :
    ∀ o, o < s →
      (FileHeader.FetchFrom (h.WriteBack σ d) σ).ByteToSector o = h.ByteToSector o := by
  obtain ⟨hwf, halc, _⟩ := FileHeader.Allocate_spec_hdr halloc
  have hndA : h.allocated.Nodup := halc.nodup
  have hndfp : h.fp.Nodup := List.Nodup.sublist (FileHeader.fp_sublist_hdr h) hndA
  have hnd : (σ :: h.fp).Nodup := List.nodup_cons.mpr ⟨hfresh, hndfp⟩
  intro o _
  rw [FileHeader.FetchFrom_WriteBack h σ d hwf hnd]

/-- Witness for C6 at a concrete instance: allocate a 200-byte file on an
8-sector bitmap, write the header to sector 10, fetch it back, and compare
`ByteToSector` at offset 150. -/
theorem C6_header_roundtrip_witness :
    FileHeader.Allocate rtDemoBM 200 = some (rtDemo.1, rtDemo.2) ∧
    10 ∉ rtDemo.1.fp ∧ 150 < 200 ∧
    (FileHeader.FetchFrom (rtDemo.1.WriteBack 10 (fun _ => [])) 10).ByteToSector 150
      = rtDemo.1.ByteToSector 150 :=
  ⟨by decide, by decide, by decide,
   @C6_header_roundtrip rtDemoBM rtDemo.2 200 rtDemo.1 10 (fun _ => [])
     (by decide) (by decide) 150 (by decide)⟩

/-- Claim C1: the repository intends `numPointer ≤ NUM_FILE_HEADER_POINTER`
for every file size the level selection accepts, and asserts exactly that in
`FileHeader::Allocate`; the code violates it.  At `fileSize = 115201`
(accepted: 115201 ≤ LEVEL_2_SIZE = 119040, so `level = 2`) the code computes
`numSectors = divRoundUp(115201, 128) = 901` and
`numPointer = divRoundUp(901, SECTOR_NUM_IN_LEVEL[1] = 30) = 31 > 30`,
so `ASSERT(numPointer <= NUM_FILE_HEADER_POINTER)` aborts. -/
theorem C1_allocate_assert_fails :
    allocSelect 115201 = some (2, 31) ∧
    NUM_FILE_HEADER_POINTER < 31 ∧ 115201 ≤ LEVEL_4_SIZE := by
  decide

/-- Claim C7: the level chosen by `FileHeader::Allocate` for size `s` equals
the level re-derived by `FileHeader::FetchFrom` from a stored
`numBytes = s` — the two routines contain the same four-way comparison
chain, so the derived levels agree for every size (including agreement on
rejection of oversized values). -/
theorem C7_level_derivation_deterministic :
    ∀ s : Nat, allocLevel s = fetchLevel s :=
  fun _ => rfl

/-! ### Directory invariants (claim C8) -/

theorem getD_set {α : Type} (l : List α) (j : Nat) (hj : j < l.length) (v : α)
    (i : Nat) (d : α) :
    (l.set j v).getD i d = if i = j then v else l.getD i d := by
  by_cases hij : i = j
  · subst hij
    simp [List.getD_eq_getElem?_getD, List.getElem?_set_self, hj]
  · simp [List.getD_eq_getElem?_getD, List.getElem?_set_ne (Ne.symm hij), hij]

theorem getD_of_length_le {α : Type} (l : List α) (i : Nat) (d : α)
    (h : l.length ≤ i) : l.getD i d = d := by
  rw [List.getD_eq_getElem?_getD, List.getElem?_eq_none h]
  rfl

theorem findIdx?_none_spec {α : Type} {p : α → Bool} {l : List α}
    (h : l.findIdx? p = none) : ∀ x ∈ l, p x = false := by
  rw [List.findIdx?_eq_none_iff] at h
  exact h

theorem findIdx?_some_spec {α : Type} {p : α → Bool} {l : List α} {j : Nat}
    (h : l.findIdx? p = some j) (d : α) :
    j < l.length ∧ p (l.getD j d) = true := by
  rw [List.findIdx?_eq_some_iff_getElem] at h
  obtain ⟨hlt, hp, _⟩ := h
  exact ⟨hlt, by rwa [List.getD_eq_getElem _ _ hlt]⟩

theorem cleanTo_of_nulFree {q : List Nat} (hq : 0 ∉ q) (n : Nat) : cleanTo q n := by
  intro i j hij _ hzero
  have hi : q.length ≤ i := by
    by_contra hlt
    push_neg at hlt
    have hmem : q.getD i 0 ∈ q := by
      rw [List.getD_eq_getElem _ _ hlt]
      exact List.getElem_mem hlt
    rw [hzero] at hmem
    exact hq hmem
  exact getD_of_length_le q j 0 (le_trans hi hij)

theorem strncmpAux_iff (a b : List Nat) (E : Nat) (ha : cleanTo a E) (hb : cleanTo b E) :
    ∀ (f i : Nat), i + f ≤ E →
      (strncmpAux a b i f = true ↔ ∀ j, i ≤ j → j < i + f → a.getD j 0 = b.getD j 0) := by
  intro f
  induction f with
  | zero =>
    intro i _
    constructor
    · intro _ j h1 h2
      omega
    · intro _
      rfl
  | succ f ih =>
    intro i hE
    simp only [strncmpAux]
    by_cases hc : a.getD i 0 = b.getD i 0
    · rw [if_pos hc]
      by_cases h0 : a.getD i 0 = 0
      · rw [if_pos h0]
        constructor
        · intro _ j hij hlt
          rcases Nat.eq_or_lt_of_le hij with rfl | hgt
          · exact hc
          · have haj : a.getD j 0 = 0 := ha i j (le_of_lt hgt) (by omega) h0
            have hbj : b.getD j 0 = 0 := hb i j (le_of_lt hgt) (by omega) (hc ▸ h0)
            rw [haj, hbj]
        · intro _
          rfl
      · rw [if_neg h0, ih (i + 1) (by omega)]
        constructor
        · intro hrec j hij hlt
          rcases Nat.eq_or_lt_of_le hij with rfl | hgt
          · exact hc
          · exact hrec j (by omega) (by omega)
        · intro hall j h1 h2
          exact hall j (by omega) (by omega)
    · rw [if_neg hc]
      simp only [Bool.false_eq_true, false_iff]
      intro hall
      exact hc (hall i le_rfl (by omega))

theorem strncmpIsZero_iff {a q : List Nat} (ha : cleanTo a FileNameMaxLen)
    (hq : 0 ∉ q) :
    strncmpIsZero a q FileNameMaxLen = true ↔
      ∀ k, k < FileNameMaxLen → a.getD k 0 = q.getD k 0 := by
  have := strncmpAux_iff a q FileNameMaxLen ha (cleanTo_of_nulFree hq _)
    FileNameMaxLen 0 (by omega)
  simpa using this

theorem strncpyArr_length (dest src : List Nat) (n : Nat) :
    (strncpyArr dest src n).length = dest.length := by
  simp [strncpyArr]

theorem strncpyArr_getD_lt {dest src : List Nat} {i : Nat} (hi : i < FileNameMaxLen)
    (hlen : dest.length = 10) :
    (strncpyArr dest src FileNameMaxLen).getD i 0 = src.getD i 0 := by
  have hlt : i < (strncpyArr dest src FileNameMaxLen).length := by
    rw [strncpyArr_length, hlen]
    have h9 : FileNameMaxLen = 9 := rfl
    omega
  rw [List.getD_eq_getElem _ _ hlt]
  unfold strncpyArr
  rw [List.getElem_map, List.getElem_range, if_pos hi]

theorem cleanTo_strncpy {dest src : List Nat} (hsrc : 0 ∉ src)
    (hlen : dest.length = 10) :
    cleanTo (strncpyArr dest src FileNameMaxLen) FileNameMaxLen := by
  intro i j hij hj h0
  rw [strncpyArr_getD_lt (by omega) hlen] at h0
  rw [strncpyArr_getD_lt hj hlen]
  exact cleanTo_of_nulFree hsrc FileNameMaxLen i j hij hj h0

theorem FindIndex_eq_neg_iff (t : List DirectoryEntry) (q : List Nat) :
    Directory.FindIndex t q = -1 ↔
      t.findIdx? (fun e => e.inUse && strncmpIsZero e.name q FileNameMaxLen) = none := by
  unfold Directory.FindIndex
  cases h : t.findIdx? (fun e => e.inUse && strncmpIsZero e.name q FileNameMaxLen) with
  | none => simp
  | some i =>
    show Int.ofNat i = -1 ↔ some i = none
    constructor
    · intro hc
      exfalso
      have hc2 : (i : Int) = -1 := hc
      omega
    · intro hc
      cases hc

theorem getD_mem {α : Type} {t : List α} {i : Nat} (hi : i < t.length) (d : α) :
    t.getD i d ∈ t := by
  rw [List.getD_eq_getElem _ _ hi]
  exact List.getElem_mem hi

theorem DirInvCore_applyOp {t : List DirectoryEntry} {op : DirOp}
    (hinv : DirInvCore t) (hq : 0 ∉ op.nameOf) : DirInvCore (applyDirOp t op) := by
  obtain ⟨hlen10, hclean, hdist⟩ := hinv
  cases op with
  | remove n =>
    show DirInvCore ((Directory.Remove t n).getD t)
    unfold Directory.Remove
    cases hfi : t.findIdx? (fun e => e.inUse && strncmpIsZero e.name n FileNameMaxLen) with
    | none => exact ⟨hlen10, hclean, hdist⟩
    | some i =>
      obtain ⟨hilt, _⟩ := findIdx?_some_spec hfi dummyEntry
      simp only [Option.getD_some]
      set e' : DirectoryEntry := { t.getD i dummyEntry with inUse := false } with he'
      refine ⟨?_, ?_, ?_⟩
      · intro e he
        rcases List.mem_or_eq_of_mem_set he with he | rfl
        · exact hlen10 e he
        · show (t.getD i dummyEntry).name.length = 10
          exact hlen10 _ (getD_mem hilt dummyEntry)
      · intro e he hu
        rcases List.mem_or_eq_of_mem_set he with he | rfl
        · exact hclean e he hu
        · simp [he'] at hu
      · intro a ha b hb hne hua hub
        rw [List.mem_range, List.length_set] at ha hb
        rw [getD_set t i hilt e' a dummyEntry] at hua ⊢
        rw [getD_set t i hilt e' b dummyEntry] at hub ⊢
        by_cases hai : a = i
        · rw [if_pos hai] at hua
          simp [he'] at hua
        · by_cases hbi : b = i
          · rw [if_pos hbi] at hub
            simp [he'] at hub
          · rw [if_neg hai] at hua ⊢
            rw [if_neg hbi] at hub ⊢
            exact hdist a (List.mem_range.mpr ha) b (List.mem_range.mpr hb) hne hua hub
  | add n s ty =>
    have hqn : (0 : Nat) ∉ n := hq
    show DirInvCore ((Directory.Add t n s ty).getD t)
    unfold Directory.Add
    by_cases hgd : Directory.FindIndex t n ≠ -1
    · rw [if_pos hgd]
      exact ⟨hlen10, hclean, hdist⟩
    · rw [if_neg hgd]
      push_neg at hgd
      have hnone := (FindIndex_eq_neg_iff t n).mp hgd
      have hnomatch := findIdx?_none_spec hnone
      cases hfree : t.findIdx? (fun e => !e.inUse) with
      | none => exact ⟨hlen10, hclean, hdist⟩
      | some j =>
        obtain ⟨hjlt, _⟩ := findIdx?_some_spec hfree dummyEntry
        simp only [Option.getD_some]
        have hold10 : (t.getD j dummyEntry).name.length = 10 :=
          hlen10 _ (getD_mem hjlt dummyEntry)
        set newE : DirectoryEntry :=
          ⟨true, ty, s, strncpyArr (t.getD j dummyEntry).name n FileNameMaxLen⟩ with hnewE
        have hnewclean : cleanTo newE.name FileNameMaxLen := cleanTo_strncpy hqn hold10
        have hnewbytes : ∀ k, k < FileNameMaxLen → newE.name.getD k 0 = n.getD k 0 := by
          intro k hk
          exact strncpyArr_getD_lt hk hold10
        have hother : ∀ e ∈ t, e.inUse = true →
            ¬(∀ k, k < FileNameMaxLen → newE.name.getD k 0 = e.name.getD k 0) := by
          intro e he hu hall
          have hm := hnomatch e he
          rw [hu] at hm
          simp only [Bool.true_and] at hm
          have : strncmpIsZero e.name n FileNameMaxLen = true := by
            rw [strncmpIsZero_iff (hclean e he hu) hqn]
            intro k hk
            rw [← hall k hk, hnewbytes k hk]
          rw [this] at hm
          cases hm
        refine ⟨?_, ?_, ?_⟩
        · intro e he
          rcases List.mem_or_eq_of_mem_set he with he | rfl
          · exact hlen10 e he
          · show (strncpyArr (t.getD j dummyEntry).name n FileNameMaxLen).length = 10
            rw [strncpyArr_length, hold10]
        · intro e he hu
          rcases List.mem_or_eq_of_mem_set he with he | rfl
          · exact hclean e he hu
          · exact hnewclean
        · intro a ha b hb hne hua hub
          rw [List.mem_range, List.length_set] at ha hb
          rw [getD_set t j hjlt newE a dummyEntry] at hua ⊢
          rw [getD_set t j hjlt newE b dummyEntry] at hub ⊢
          by_cases hai : a = j
          · rw [if_pos hai] at hua ⊢
            by_cases hbi : b = j
            · exact absurd (hai.trans hbi.symm) hne
            · rw [if_neg hbi] at hub ⊢
              intro hall
              refine hother _ (getD_mem hb dummyEntry) hub ?_
              intro k hk
              exact hall k (List.mem_range.mpr hk)
          · rw [if_neg hai] at hua ⊢
            by_cases hbi : b = j
            · rw [if_pos hbi] at hub ⊢
              intro hall
              refine hother _ (getD_mem ha dummyEntry) hua ?_
              intro k hk
              exact (hall k (List.mem_range.mpr hk)).symm
            · rw [if_neg hbi] at hub ⊢
              exact hdist a (List.mem_range.mpr ha) b (List.mem_range.mpr hb) hne hua hub

theorem namesTerminated_applyOp {t : List DirectoryEntry} {op : DirOp}
    (hlen10 : ∀ e ∈ t, e.name.length = 10) (hterm : namesTerminated t)
    (hshort : op.nameOf.length < FileNameMaxLen) :
    namesTerminated (applyDirOp t op) := by
  cases op with
  | remove n =>
    show namesTerminated ((Directory.Remove t n).getD t)
    unfold Directory.Remove
    cases hfi : t.findIdx? (fun e => e.inUse && strncmpIsZero e.name n FileNameMaxLen) with
    | none => exact hterm
    | some i =>
      simp only [Option.getD_some]
      intro e he hu
      rcases List.mem_or_eq_of_mem_set he with he | rfl
      · exact hterm e he hu
      · simp at hu
  | add n s ty =>
    have hsn : n.length < FileNameMaxLen := hshort
    show namesTerminated ((Directory.Add t n s ty).getD t)
    unfold Directory.Add
    by_cases hgd : Directory.FindIndex t n ≠ -1
    · rw [if_pos hgd]
      exact hterm
    · rw [if_neg hgd]
      cases hfree : t.findIdx? (fun e => !e.inUse) with
      | none => exact hterm
      | some j =>
        obtain ⟨hjlt, _⟩ := findIdx?_some_spec hfree dummyEntry
        simp only [Option.getD_some]
        intro e he hu
        rcases List.mem_or_eq_of_mem_set he with he | rfl
        · exact hterm e he hu
        · refine ⟨n.length, List.mem_range.mpr hsn, ?_⟩
          show (strncpyArr (t.getD j dummyEntry).name n FileNameMaxLen).getD n.length 0 = 0
          rw [strncpyArr_getD_lt hsn (hlen10 _ (getD_mem hjlt dummyEntry))]
          exact getD_of_length_le n n.length 0 le_rfl

theorem DirInvCore_runDirOps {init : List DirectoryEntry} {ops : List DirOp}
    (hinv : DirInvCore init) (hops : ∀ op ∈ ops, 0 ∉ op.nameOf) :
    DirInvCore (runDirOps init ops) := by
  induction ops generalizing init with
  | nil => exact hinv
  | cons op ops ih =>
    exact ih (DirInvCore_applyOp hinv (hops op (by simp)))
      (fun o ho => hops o (by simp [ho]))

theorem namesTerminated_runDirOps {init : List DirectoryEntry} {ops : List DirOp}
    (hinv : DirInvCore init) (hterm : namesTerminated init)
    (hops : ∀ op ∈ ops, 0 ∉ op.nameOf)
    (hshort : ∀ op ∈ ops, op.nameOf.length < FileNameMaxLen) :
    namesTerminated (runDirOps init ops) := by
  induction ops generalizing init with
  | nil => exact hterm
  | cons op ops ih =>
    refine ih (DirInvCore_applyOp hinv (hops op (by simp)))
      (namesTerminated_applyOp hinv.1 hterm (hshort op (by simp)))
      (fun o ho => hops o (by simp [ho]))
      (fun o ho => hshort o (by simp [ho]))

theorem DirInv_of_fresh {t : List DirectoryEntry}
    (h : ∀ e ∈ t, e.inUse = false ∧ e.name.length = 10) :
    DirInvCore t ∧ namesTerminated t := by
  refine ⟨⟨fun e he => (h e he).2, ?_, ?_⟩, ?_⟩
  · intro e he hu
    rw [(h e he).1] at hu
    cases hu
  · intro a ha b hb hne hua hub
    rw [List.mem_range] at ha
    rw [(h _ (getD_mem ha dummyEntry)).1] at hua
    cases hua
  · intro e he hu
    rw [(h e he).1] at hu
    cases hu

/-- Claim C8 counterexample: from a freshly constructed directory whose
indeterminate name bytes are nonzero, one successful
`Add("abcdefghi", ...)` (a name of exactly `FileNameMaxLen` characters)
stores a name with no NUL anywhere in its 10-byte array: `strncpy`
bounded by `FileNameMaxLen` writes nine non-NUL bytes and never touches
byte 9, so the claimed NUL-termination invariant fails. -/
theorem C8_counterexample :
    (Directory.Add c8Init c8Name 5 FILE_TYPE).isSome = true ∧
    ¬namesTerminated ((Directory.Add c8Init c8Name 5 FILE_TYPE).getD []) ∧
    (∀ e ∈ (Directory.Add c8Init c8Name 5 FILE_TYPE).getD [],
      e.inUse = true → (0 : Nat) ∉ e.name) := by
  decide

/-- Claim C8 as amended: over every sequence of `Directory::Add` and
`Directory::Remove` operations from a freshly constructed directory, with
NUL-free argument names, no two in-use entries store the same name (on
the `FileNameMaxLen` bytes `FindIndex` compares); and when every added
name has at most `FileNameMaxLen - 1` characters, every in-use entry's
stored name is additionally NUL-terminated. -/
theorem C8_directory_invariants (init : List DirectoryEntry) (ops : List DirOp)
    (hinit : ∀ e ∈ init, e.inUse = false ∧ e.name.length = 10)
    (hops : ∀ op ∈ ops, (0 : Nat) ∉ op.nameOf) :
    namesDistinct (runDirOps init ops) ∧
    ((∀ op ∈ ops, op.nameOf.length < FileNameMaxLen) →
      namesTerminated (runDirOps init ops)) := by
  obtain ⟨hcore, hterm⟩ := DirInv_of_fresh hinit
  exact ⟨(DirInvCore_runDirOps hcore hops).2.2,
    fun hshort => namesTerminated_runDirOps hcore hterm hops hshort⟩

/-- Witness for C8 at a concrete instance: two adds and a remove on a
fresh directory keep the names distinct and NUL-terminated. -/
theorem C8_directory_invariants_witness :
    namesDistinct (runDirOps c8Init c8WitnessOps) ∧
    namesTerminated (runDirOps c8Init c8WitnessOps) :=
  ⟨(C8_directory_invariants c8Init c8WitnessOps (by decide) (by decide)).1,
   (C8_directory_invariants c8Init c8WitnessOps (by decide) (by decide)).2 (by decide)⟩

/-- Claim C2: whenever `FileSystem::CreateFile` fails — duplicate leaf, no
free sector for the header, full parent directory, or failed data-block
allocation — the on-disk bitmap file, the on-disk parent directory file
and the header sectors are exactly as before the call; every disk write
is confined to the single success branch.  (`FileSystem::Create` is this
routine after path resolution, which never writes anything but the
directory content it just fetched.) -/
theorem C2_createfile_failure_rollback (st : FSDiskState) (name : List Nat)
    (size : Nat) :
    (FileSystem.CreateFile st name size).1 = false →
      (FileSystem.CreateFile st name size).2 = st := by
  unfold FileSystem.CreateFile
  by_cases h1 : Directory.Find st.dirFile name ≠ -1
  · rw [if_pos h1]
    intro _
    rfl
  · rw [if_neg h1]
    cases findAndSet st.bmFile with
    | none =>
      intro _
      rfl
    | some p =>
      obtain ⟨sector, bm1⟩ := p
      dsimp only
      cases Directory.Add st.dirFile name sector FILE_TYPE with
      | none =>
        intro _
        rfl
      | some dir1 =>
        cases FileHeader.Allocate bm1 size with
        | none =>
          intro _
          rfl
        | some q =>
          obtain ⟨hdr, bm2⟩ := q
          dsimp only
          intro h
          simp at h

/-- Witness for C2: creating a file on a full two-sector disk fails and
leaves the on-disk state untouched. -/
theorem C2_createfile_failure_rollback_witness :
    (FileSystem.CreateFile c2State [120] 100).1 = false ∧
    (FileSystem.CreateFile c2State [120] 100).2 = c2State :=
  ⟨by decide, C2_createfile_failure_rollback c2State [120] 100 (by decide)⟩

theorem find?_append_of_none {α : Type} {p : α → Bool} {l1 l2 : List α}
    (h : l1.find? p = none) : (l1 ++ l2).find? p = l2.find? p := by
  induction l1 with
  | nil => rfl
  | cons a as ih =>
    by_cases hp : p a
    · rw [List.find?_cons_of_pos _ hp] at h
      cases h
    · rw [List.find?_cons_of_neg _ hp] at h
      rw [List.cons_append, List.find?_cons_of_neg _ hp]
      exact ih h

/-- Claim C10: looking up an absent open-file id through `table[fd]` in
`ReadFile`, `WriteFile` or `CloseFile` returns the failure sentinel
(`-1`, `-1`, `0` respectively) but also mutates the table, inserting
`fd ↦ nullptr`; a later `OpenAFile` whose header sector equals `fd` then
finds the key already present, so its `table.insert` is a no-op. -/
theorem C10_missing_fd_inserts_null (rd wr : Nat → Int) (t : OFTable) (fd : Int)
    (habs : t.find? (fun e => e.1 == fd) = none) :
    (FileSystem.ReadFile rd t fd).1 = -1 ∧
    (FileSystem.ReadFile rd t fd).2 = t ++ [(fd, none)] ∧
    (FileSystem.WriteFile wr t fd).1 = -1 ∧
    (FileSystem.WriteFile wr t fd).2 = t ++ [(fd, none)] ∧
    (FileSystem.CloseFile t fd).1 = 0 ∧
    (FileSystem.CloseFile t fd).2 = t ++ [(fd, none)] ∧
    (∀ h : Nat, mapInsert (t ++ [(fd, none)]) fd (some h) = t ++ [(fd, none)]) := by
  have hidx : mapIndex t fd = (none, t ++ [(fd, none)]) := by
    unfold mapIndex
    rw [habs]
  have hpresent :
      ((t ++ [(fd, none)]).find? (fun e : Int × Option Nat => e.1 == fd)).isSome = true := by
    rw [find?_append_of_none habs]
    simp [List.find?_cons]
  refine ⟨?_, ?_, ?_, ?_, ?_, ?_, ?_⟩
  · unfold FileSystem.ReadFile
    rw [hidx]
  · unfold FileSystem.ReadFile
    rw [hidx]
  · unfold FileSystem.WriteFile
    rw [hidx]
  · unfold FileSystem.WriteFile
    rw [hidx]
  · unfold FileSystem.CloseFile
    rw [hidx]
  · unfold FileSystem.CloseFile
    rw [hidx]
  · intro h
    unfold mapInsert
    rw [if_pos hpresent]

/-- Witness for C10: id 3 against an empty table. -/
theorem C10_missing_fd_inserts_null_witness :
    (FileSystem.ReadFile (fun _ => 0) [] 3).1 = -1 ∧
    (FileSystem.ReadFile (fun _ => 0) [] 3).2 = [(3, none)] ∧
    (FileSystem.WriteFile (fun _ => 0) [] 3).1 = -1 ∧
    (FileSystem.WriteFile (fun _ => 0) [] 3).2 = [(3, none)] ∧
    (FileSystem.CloseFile [] 3).1 = 0 ∧
    (FileSystem.CloseFile [] 3).2 = [(3, none)] ∧
    (∀ h : Nat, mapInsert ([] ++ [((3 : Int), none)]) 3 (some h) = [] ++ [((3 : Int), none)]) :=
  C10_missing_fd_inserts_null (fun _ => 0) (fun _ => 0) [] 3 (by decide)

/-- Claim C4: `FileSystem::Remove` is claimed to return FALSE whenever an
intermediate path component is missing; in fact, when path resolution
fails the body is skipped and the function falls through to
`return TRUE`.  Concretely: on a freshly formatted disk (empty root, so
the intermediate `d` does not resolve: `Find("d") = -1`),
`Remove("/d/x")` returns TRUE even though nothing exists or was removed —
contradicting the routine's own contract comment ("Return TRUE if the
file was deleted, FALSE if the file wasn't in the file system").  The
leaf-missing case does return FALSE (second conjunct). -/
theorem C4_remove_true_on_unresolved_path :
    (FileSystem.Remove c4FS ['/', 'd', '/', 'x']).1 = true ∧
    Directory.Find (c4FS.dirOf DirectorySector) [100] = -1 ∧
    (FileSystem.Remove c4FS ['/', 'x']).1 = false := by
  decide

/-- Claim C5: `FileSystem::OpenAFile` is claimed to return `-1` on every
failure; in fact `int sector;` is uninitialized and is returned as-is
when path resolution fails, so the result is whatever value the stack
held (modelled by the `junk` parameter) — possibly a non-negative value
that looks like success.  Evaluated at two junk values on an empty root
with path `/d/x`. -/
theorem C5_openafile_returns_uninitialized :
    (FileSystem.OpenAFile 7 c4FS [] ['/', 'd', '/', 'x']).1 = 7 ∧
    (FileSystem.OpenAFile (-3) c4FS [] ['/', 'd', '/', 'x']).1 = -3 ∧
    (FileSystem.OpenAFile 7 c4FS [] ['/', 'x']).1 = -1 := by
  decide

/-- Claim C9: the spec requires every entry path to reset the current
directory to root before returning; `FileSystem::Remove`'s
`return FALSE` branches (root leaf, leaf not found) skip
`ResetToRootDirectory()`.  Concretely: with directory `d` at sector 5 and
no entry `x` inside it, `Remove("/d/x")` returns FALSE with the cursor
left at sector 5 instead of the root sector 1. -/
theorem C9_remove_skips_reset :
    (FileSystem.Remove c9FS ['/', 'd', '/', 'x']).1 = false ∧
    (FileSystem.Remove c9FS ['/', 'd', '/', 'x']).2.cursor = 5 ∧
    DirectorySector = 1 := by
  decide

/-! ### Deallocation clears the owned sectors (claim C3) -/

theorem bmTest_bmClear_self (bm : List Bool) (x : Nat) :
    bmTest (bmClear bm x) x = false := by
  by_cases hx : x < bm.length
  · simp [bmClear, bmTest, List.getD_eq_getElem?_getD, List.getElem?_set_self, hx]
  · rw [bmClear, List.set_eq_of_length_le (by omega)]
    simp [bmTest, List.getD_eq_getElem?_getD, List.getElem?_eq_none (by omega : bm.length ≤ x)]

theorem bmTest_bmClear_other (bm : List Bool) (x s : Nat) (hne : s ≠ x) :
    bmTest (bmClear bm x) s = bmTest bm s := by
  simp [bmClear, bmTest, List.getD_eq_getElem?_getD, List.getElem?_set_ne (Ne.symm hne)]

theorem bmClear_preserves {bm : List Bool} {s : Nat} (x : Nat)
    (h : bmTest bm s = false) : bmTest (bmClear bm x) s = false := by
  by_cases hsx : s = x
  · subst hsx
    exact bmTest_bmClear_self bm s
  · rw [bmTest_bmClear_other bm x s hsx]
    exact h

theorem foldl_bmClear_spec (l : List Nat) : ∀ bm : List Bool,
    (∀ s ∈ l, bmTest (l.foldl bmClear bm) s = false) ∧
    (∀ s, bmTest bm s = false → bmTest (l.foldl bmClear bm) s = false) := by
  induction l with
  | nil => exact fun bm => ⟨by simp, fun s h => h⟩
  | cons x xs ih =>
    intro bm
    constructor
    · intro s hs
      rcases List.mem_cons.mp hs with rfl | hs
      · exact (ih (bmClear bm s)).2 s (bmTest_bmClear_self bm s)
      · exact (ih (bmClear bm x)).1 s hs
    · intro s hfree
      exact (ih (bmClear bm x)).2 s (bmClear_preserves x hfree)

theorem dptrDealloc_spec (c : DataPtr) (hlv : c.levelOf ≤ 2) (bm : List Bool) :
    (∀ s ∈ c.allocated, bmTest (c.Deallocate bm) s = false) ∧
    (∀ s, bmTest bm s = false → bmTest (c.Deallocate bm) s = false) := by
  cases c with
  | dp p =>
    refine ⟨?_, ?_⟩
    · intro s hs
      rcases List.mem_singleton.mp hs with rfl
      exact bmTest_bmClear_self bm _
    · intro s h
      exact bmClear_preserves _ h
  | sp p => exact foldl_bmClear_spec _ bm
  | ddp p => simp [DataPtr.levelOf] at hlv
  | tp p => simp [DataPtr.levelOf] at hlv

theorem zipDealloc_spec (l : List (Nat × DataPtr)) (hlv : ∀ w ∈ l, w.2.levelOf ≤ 2) :
    ∀ bm : List Bool,
    (∀ s, s ∈ l.map Prod.fst ++ l.flatMap (fun w => w.2.allocated) →
        bmTest (l.foldl (fun b w => bmClear (w.2.Deallocate b) w.1) bm) s = false) ∧
    (∀ s, bmTest bm s = false →
        bmTest (l.foldl (fun b w => bmClear (w.2.Deallocate b) w.1) bm) s = false) := by
  induction l with
  | nil => exact fun bm => ⟨by simp, fun s h => h⟩
  | cons w ws ih =>
    intro bm
    have hw := hlv w (by simp)
    have hihs := ih (fun x hx => hlv x (by simp [hx]))
    constructor
    · intro s hs
      simp only [List.map_cons, List.flatMap_cons, List.foldl_cons] at hs ⊢
      have hsplit : s = w.1 ∨ s ∈ w.2.allocated ∨
          s ∈ ws.map Prod.fst ++ ws.flatMap (fun x => x.2.allocated) := by
        rcases List.mem_append.mp hs with hs | hs
        · rcases List.mem_cons.mp hs with rfl | hs
          · exact Or.inl rfl
          · exact Or.inr (Or.inr (List.mem_append_left _ hs))
        · rcases List.mem_append.mp hs with hs | hs
          · exact Or.inr (Or.inl hs)
          · exact Or.inr (Or.inr (List.mem_append_right _ hs))
      rcases hsplit with hs1 | hs | hs
      · subst hs1
        exact (hihs _).2 _ (bmTest_bmClear_self _ _)
      · exact (hihs _).2 s
          (bmClear_preserves _ ((dptrDealloc_spec w.2 hw bm).1 s hs))
      · exact (hihs _).1 s hs
    · intro s hfree
      simp only [List.foldl_cons]
      exact (hihs _).2 s (bmClear_preserves _ ((dptrDealloc_spec w.2 hw bm).2 s hfree))

theorem FileHeader.Deallocate_spec (h : FileHeader) (hwf : h.wf) (hl2 : h.level ≤ 2)
    (bm : List Bool) :
    (∀ s ∈ h.allocated, bmTest (h.Deallocate bm) s = false) ∧
    (∀ s, bmTest bm s = false → bmTest (h.Deallocate bm) s = false) := by
  obtain ⟨hlen, hnp, htab, _, hcw⟩ := hwf
  have hlt : (h.pointerSectors.take h.numPointer).length ≤ h.table.length := by
    rw [List.length_take, hlen, htab]
    omega
  have hlt2 : h.table.length ≤ (h.pointerSectors.take h.numPointer).length := by
    rw [List.length_take, hlen, htab]
    omega
  have hz := zipDealloc_spec ((h.pointerSectors.take h.numPointer).zip h.table)
    (fun w hw => by
      rw [(hcw w.2 (List.of_mem_zip hw).2).2]
      exact hl2) bm
  refine ⟨?_, hz.2⟩
  intro s hs
  refine hz.1 s ?_
  rw [List.map_fst_zip _ _ hlt,
    ← List.flatMap_map (f := Prod.snd) (g := DataPtr.allocated),
    List.map_snd_zip _ _ hlt2]
  exact hs

theorem removeRecursive_succ (hdrOf : Nat → FileHeader) (fuel : Nat)
    (dirOf : Nat → List DirectoryEntry) (bm : List Bool) (σ : Nat) :
    removeRecursive hdrOf (fuel + 1) dirOf bm σ =
      (fun τ => if τ = σ then (dirOf σ).map (fun e => { e with inUse := false })
        else ((dirOf σ).foldl (removeStep hdrOf fuel) (dirOf, bm)).1 τ,
       ((dirOf σ).foldl (removeStep hdrOf fuel) (dirOf, bm)).2) := rfl

mutual
theorem FTree.loadedB_congr (t : FTree) (dirOf dirOf2 : Nat → List DirectoryEntry)
    (hdrOf : Nat → FileHeader)
    (hag : ∀ τ ∈ t.dirSectors, dirOf2 τ = dirOf τ) :
    t.loadedB dirOf2 hdrOf = t.loadedB dirOf hdrOf := by
  cases t with
  | file s h => rfl
  | dir s h cs =>
    have hs : dirOf2 s = dirOf s := hag s (by simp [FTree.dirSectors])
    simp only [FTree.loadedB, hs]
    rw [FForest.childrenB_congr cs ((dirOf s).filter (fun e => e.inUse)) dirOf dirOf2
      hdrOf (fun τ hτ => hag τ (by simp [FTree.dirSectors, hτ]))]
theorem FForest.childrenB_congr (cs : FForest) (es : List DirectoryEntry)
    (dirOf dirOf2 : Nat → List DirectoryEntry) (hdrOf : Nat → FileHeader)
    (hag : ∀ τ ∈ cs.dirSectors, dirOf2 τ = dirOf τ) :
    FForest.childrenB dirOf2 hdrOf es cs = FForest.childrenB dirOf hdrOf es cs := by
  cases cs with
  | nil => cases es <;> rfl
  | cons c cs2 =>
    cases es with
    | nil => rfl
    | cons e es2 =>
      simp only [FForest.childrenB]
      rw [FTree.loadedB_congr c dirOf dirOf2 hdrOf
          (fun τ hτ => hag τ (by simp [FForest.dirSectors, hτ])),
        FForest.childrenB_congr cs2 es2 dirOf dirOf2 hdrOf
          (fun τ hτ => hag τ (by simp [FForest.dirSectors, hτ]))]
end

theorem removeRecFold_spec (hdrOf : Nat → FileHeader) (fuel : Nat)
    (IH : ∀ (σ : Nat) (h : FileHeader) (cs : FForest)
        (dirOf : Nat → List DirectoryEntry) (bm : List Bool),
        FTree.loadedB dirOf hdrOf (.dir σ h cs) = true →
        FForest.okB cs = true →
        FForest.depth cs + 1 ≤ fuel →
        (FTree.dirSectors (.dir σ h cs)).Nodup →
        (∀ s ∈ FForest.reachable cs,
            bmTest (removeRecursive hdrOf fuel dirOf bm σ).2 s = false) ∧
        (∀ s, bmTest bm s = false →
            bmTest (removeRecursive hdrOf fuel dirOf bm σ).2 s = false) ∧
        (∀ τ, τ ∉ FTree.dirSectors (.dir σ h cs) →
            (removeRecursive hdrOf fuel dirOf bm σ).1 τ = dirOf τ)) :
    ∀ (es : List DirectoryEntry) (cs : FForest)
      (dirOf : Nat → List DirectoryEntry) (bm : List Bool),
      FForest.childrenB dirOf hdrOf (es.filter (fun e => e.inUse)) cs = true →
      FForest.okB cs = true →
      FForest.depth cs ≤ fuel →
      (FForest.dirSectors cs).Nodup →
      (∀ s ∈ FForest.reachable cs,
          bmTest (es.foldl (removeStep hdrOf fuel) (dirOf, bm)).2 s = false) ∧
      (∀ s, bmTest bm s = false →
          bmTest (es.foldl (removeStep hdrOf fuel) (dirOf, bm)).2 s = false) ∧
      (∀ τ, τ ∉ FForest.dirSectors cs →
          (es.foldl (removeStep hdrOf fuel) (dirOf, bm)).1 τ = dirOf τ) := by
  intro es
  induction es with
  | nil =>
    intro cs dirOf bm hch hok hdep hnd
    cases cs with
    | nil =>
      refine ⟨by simp [FForest.reachable], fun s h => h, fun τ _ => rfl⟩
    | cons c cs2 => simp [FForest.childrenB] at hch
  | cons e es ih =>
    intro cs dirOf bm hch hok hdep hnd
    by_cases he : e.inUse = true
    · rw [List.filter_cons_of_pos (by simp [he])] at hch
      cases cs with
      | nil => simp [FForest.childrenB] at hch
      | cons c cs2 =>
        simp only [FForest.childrenB, Bool.and_eq_true, decide_eq_true_eq] at hch
        obtain ⟨⟨⟨hsec, hkind⟩, hload⟩, hch2⟩ := hch
        simp only [FForest.okB, Bool.and_eq_true] at hok
        obtain ⟨hokc, hokcs⟩ := hok
        have hdc : FTree.depth c ≤ fuel := le_trans (le_max_left _ _) hdep
        have hdcs : FForest.depth cs2 ≤ fuel := le_trans (le_max_right _ _) hdep
        rw [FForest.dirSectors, List.nodup_append] at hnd
        obtain ⟨hndc, hndcs, hdisj⟩ := hnd
        cases c with
        | file cSec cHdr =>
          subst hsec
          have hkind2 : ¬ e.fileType = DIR_TYPE := by
            simpa [FTree.isDir] using hkind
          have hhdr : hdrOf e.sector = cHdr := by
            simpa [FTree.loadedB] using hload
          simp only [FTree.okB, Bool.and_eq_true, decide_eq_true_eq] at hokc
          obtain ⟨hwf, hl2⟩ := hokc
          have hstep : removeStep hdrOf fuel (dirOf, bm) e =
              (dirOf, bmClear (FileHeader.Deallocate (hdrOf e.sector) bm) e.sector) := by
            simp [removeStep, he, hkind2]
          simp only [List.foldl_cons, hstep]
          set bmA := bmClear (FileHeader.Deallocate (hdrOf e.sector) bm) e.sector with hbmA
          have hds := FileHeader.Deallocate_spec (hdrOf e.sector)
            (by rw [hhdr]; exact hwf) (by rw [hhdr]; exact hl2) bm
          have hAsec : bmTest bmA e.sector = false := bmTest_bmClear_self _ _
          have hAalloc : ∀ s ∈ cHdr.allocated, bmTest bmA s = false := by
            intro s hs
            exact bmClear_preserves _ (hds.1 s (by rw [hhdr]; exact hs))
          have hApres : ∀ s, bmTest bm s = false → bmTest bmA s = false :=
            fun s h => bmClear_preserves _ (hds.2 s h)
          have htail := ih cs2 dirOf bmA hch2 hokcs hdcs hndcs
          refine ⟨?_, ?_, ?_⟩
          · intro s hs
            simp only [FForest.reachable, FTree.reachable, List.mem_append,
              List.mem_cons] at hs
            rcases hs with (rfl | hs) | hs
            · exact htail.2.1 _ hAsec
            · exact htail.2.1 s (hAalloc s hs)
            · exact htail.1 s hs
          · intro s hfree
            exact htail.2.1 s (hApres s hfree)
          · intro τ hτ
            refine htail.2.2 τ ?_
            simp only [FForest.dirSectors, FTree.dirSectors, List.nil_append] at hτ ⊢
            exact hτ
        | dir cSec cHdr ccs =>
          subst hsec
          have hkind2 : e.fileType = DIR_TYPE := by
            simpa [FTree.isDir] using hkind
          have hhdr : hdrOf e.sector = cHdr := by
            simp only [FTree.loadedB, Bool.and_eq_true, decide_eq_true_eq] at hload
            exact hload.1
          simp only [FTree.okB, Bool.and_eq_true, decide_eq_true_eq] at hokc
          obtain ⟨⟨hwf, hl2⟩, hokccs⟩ := hokc
          have hdccs : FForest.depth ccs + 1 ≤ fuel := by
            simpa [FTree.depth] using hdc
          have hrr := IH e.sector cHdr ccs dirOf bm hload hokccs hdccs
            (by simpa [FTree.dirSectors] using hndc)
          set rr := removeRecursive hdrOf fuel dirOf bm e.sector with hrrdef
          have hstep : removeStep hdrOf fuel (dirOf, bm) e =
              (rr.1, bmClear (FileHeader.Deallocate (hdrOf e.sector) rr.2) e.sector) := by
            simp [removeStep, he, hkind2]
          simp only [List.foldl_cons, hstep]
          set bmB := bmClear (FileHeader.Deallocate (hdrOf e.sector) rr.2) e.sector with hbmB
          have hds := FileHeader.Deallocate_spec (hdrOf e.sector)
            (by rw [hhdr]; exact hwf) (by rw [hhdr]; exact hl2) rr.2
          have hBsec : bmTest bmB e.sector = false := bmTest_bmClear_self _ _
          have hBalloc : ∀ s ∈ cHdr.allocated, bmTest bmB s = false := by
            intro s hs
            exact bmClear_preserves _ (hds.1 s (by rw [hhdr]; exact hs))
          have hBreach : ∀ s ∈ FForest.reachable ccs, bmTest bmB s = false := by
            intro s hs
            exact bmClear_preserves _ (hds.2 s (hrr.1 s hs))
          have hBpres : ∀ s, bmTest bm s = false → bmTest bmB s = false :=
            fun s h => bmClear_preserves _ (hds.2 s (hrr.2.1 s h))
          have hframe : ∀ τ ∈ FForest.dirSectors cs2, rr.1 τ = dirOf τ := by
            intro τ hτ
            refine hrr.2.2 τ ?_
            intro hmem
            exact hdisj hmem hτ
          have hch3 : FForest.childrenB rr.1 hdrOf (es.filter (fun x => x.inUse)) cs2 = true := by
            rw [FForest.childrenB_congr cs2 _ dirOf rr.1 hdrOf hframe]
            exact hch2
          have htail := ih cs2 rr.1 bmB hch3 hokcs hdcs hndcs
          refine ⟨?_, ?_, ?_⟩
          · intro s hs
            simp only [FForest.reachable, FTree.reachable, List.mem_append,
              List.mem_cons] at hs
            rcases hs with (rfl | hs) | hs
            · exact htail.2.1 _ hBsec
            · rcases hs with hs | hs
              · exact htail.2.1 s (hBalloc s hs)
              · exact htail.2.1 s (hBreach s hs)
            · exact htail.1 s hs
          · intro s hfree
            exact htail.2.1 s (hBpres s hfree)
          · intro τ hτ
            simp only [FForest.dirSectors, FTree.dirSectors, List.mem_append,
              List.mem_cons] at hτ
            push_neg at hτ
            rw [htail.2.2 τ (by
              intro hmem
              exact hτ.2 hmem)]
            refine hrr.2.2 τ ?_
            simp only [FTree.dirSectors, List.mem_cons]
            push_neg
            exact hτ.1
    · rw [List.filter_cons_of_neg (by simpa using he)] at hch
      have hstep : removeStep hdrOf fuel (dirOf, bm) e = (dirOf, bm) := by
        simp [removeStep, he]
      simp only [List.foldl_cons, hstep]
      exact ih cs dirOf bm hch hok hdep hnd

theorem removeRecursive_spec (hdrOf : Nat → FileHeader) :
    ∀ (fuel σ : Nat) (h : FileHeader) (cs : FForest)
      (dirOf : Nat → List DirectoryEntry) (bm : List Bool),
      FTree.loadedB dirOf hdrOf (.dir σ h cs) = true →
      FForest.okB cs = true →
      FForest.depth cs + 1 ≤ fuel →
      (FTree.dirSectors (.dir σ h cs)).Nodup →
      (∀ s ∈ FForest.reachable cs,
          bmTest (removeRecursive hdrOf fuel dirOf bm σ).2 s = false) ∧
      (∀ s, bmTest bm s = false →
          bmTest (removeRecursive hdrOf fuel dirOf bm σ).2 s = false) ∧
      (∀ τ, τ ∉ FTree.dirSectors (.dir σ h cs) →
          (removeRecursive hdrOf fuel dirOf bm σ).1 τ = dirOf τ) := by
  intro fuel
  induction fuel with
  | zero =>
    intro σ h cs dirOf bm _ _ hdep _
    exact absurd hdep (by omega)
  | succ fuel ih =>
    intro σ h cs dirOf bm hload hok hdep hnd
    have hch : FForest.childrenB dirOf hdrOf ((dirOf σ).filter (fun e => e.inUse)) cs = true := by
      simp only [FTree.loadedB, Bool.and_eq_true] at hload
      exact hload.2
    have hnd2 : (FForest.dirSectors cs).Nodup := by
      rw [FTree.dirSectors, List.nodup_cons] at hnd
      exact hnd.2
    have hσnot : σ ∉ FForest.dirSectors cs := by
      rw [FTree.dirSectors, List.nodup_cons] at hnd
      exact hnd.1
    have hfold := removeRecFold_spec hdrOf fuel ih (dirOf σ) cs dirOf bm hch hok
      (by omega) hnd2
    rw [removeRecursive_succ]
    refine ⟨fun s hs => hfold.1 s hs, fun s hf => hfold.2.1 s hf, ?_⟩
    intro τ hτ
    simp only [FTree.dirSectors, List.mem_cons] at hτ
    push_neg at hτ
    simp only [if_neg hτ.1]
    exact hfold.2.2 τ hτ.2

theorem removeRecursive_empties (hdrOf : Nat → FileHeader) (fuel : Nat)
    (dirOf : Nat → List DirectoryEntry) (bm : List Bool) (σ : Nat) :
    (removeRecursive hdrOf (fuel + 1) dirOf bm σ).1 σ =
      (dirOf σ).map (fun e => { e with inUse := false }) := by
  rw [removeRecursive_succ]
  simp

/-- C3: removing a directory `d` reclaims its whole subtree — after
`FileSystem::RemoveDir` on a directory whose on-disk subtree is loaded,
well-formed (headers of the shape `Allocate` produces, level at most 2)
and acyclic (distinct directory-table sectors), every sector reachable
from `d` — `d`'s own header sector, every descendant's header sector, and
all pointer/data sectors of every descendant's header — is clear in the
bitmap, and the table stored for `d` holds no in-use entry.  The
recursive walk is the spec-modelled `Directory::RemoveRecursive`; the
per-node deallocation is the source-embedded `FileHeader::Deallocate`. -/
theorem C3_removedir_frees_subtree (fs : FSys) (σ : Nat) (nm : List Nat)
    (h : FileHeader) (cs : FForest)
    (hload : FTree.loadedB fs.dirOf fs.hdrOf (.dir σ h cs) = true)
    (hok : FTree.okB (.dir σ h cs) = true)
    (hdep : FTree.depth (.dir σ h cs) ≤ removeFuel)
    (hnd : (FTree.dirSectors (.dir σ h cs)).Nodup)
    (hcur : σ ≠ fs.cursor) :
    (∀ s ∈ FTree.reachable (.dir σ h cs),
        bmTest (FileSystem.RemoveDir fs σ nm).bm s = false) ∧
    (∀ e ∈ (FileSystem.RemoveDir fs σ nm).dirOf σ, e.inUse = false) := by
  have hhdr : fs.hdrOf σ = h := by
    simp only [FTree.loadedB, Bool.and_eq_true, decide_eq_true_eq] at hload
    exact hload.1
  simp only [FTree.okB, Bool.and_eq_true, decide_eq_true_eq] at hok
  obtain ⟨⟨hwf, hl2⟩, hokcs⟩ := hok
  have hdep2 : FForest.depth cs + 1 ≤ removeFuel := by
    simpa [FTree.depth] using hdep
  have hspec := removeRecursive_spec fs.hdrOf removeFuel σ h cs fs.dirOf fs.bm
    hload hokcs hdep2 hnd
  have hds := FileHeader.Deallocate_spec (fs.hdrOf σ)
    (by rw [hhdr]; exact hwf) (by rw [hhdr]; exact hl2)
    (removeRecursive fs.hdrOf removeFuel fs.dirOf fs.bm σ).2
  constructor
  · intro s hs
    simp only [FTree.reachable, List.mem_cons, List.mem_append] at hs
    show bmTest (bmClear ((fs.hdrOf σ).Deallocate
      (removeRecursive fs.hdrOf removeFuel fs.dirOf fs.bm σ).2) σ) s = false
    rcases hs with rfl | hs | hs
    · exact bmTest_bmClear_self _ _
    · exact bmClear_preserves _ (hds.1 s (by rw [hhdr]; exact hs))
    · exact bmClear_preserves _ (hds.2 s (hspec.1 s hs))
  · intro e he
    have he2 : e ∈ (if σ = fs.cursor
        then (Directory.Remove fs.curDir nm).getD fs.curDir
        else (removeRecursive fs.hdrOf removeFuel fs.dirOf fs.bm σ).1 σ) := he
    rw [if_neg hcur] at he2
    have hemp := removeRecursive_empties fs.hdrOf (removeFuel - 1) fs.dirOf fs.bm σ
    rw [(by decide : removeFuel - 1 + 1 = removeFuel)] at hemp
    rw [hemp] at he2
    obtain ⟨x, _, rfl⟩ := List.mem_map.mp he2
    rfl

/-- The C3 hypotheses hold at a concrete two-level tree (a directory at
sector 5 holding one 100-byte file at sector 6) and the conclusion
follows by the theorem. -/
theorem C3_removedir_frees_subtree_witness :
    (∀ s ∈ FTree.reachable (.dir 5 c3DirHdr (.cons (.file 6 c3FileHdr) .nil)),
        bmTest (FileSystem.RemoveDir c3FS 5 [100]).bm s = false) ∧
    (∀ e ∈ (FileSystem.RemoveDir c3FS 5 [100]).dirOf 5, e.inUse = false) :=
  C3_removedir_frees_subtree c3FS 5 [100] c3DirHdr
    (.cons (.file 6 c3FileHdr) .nil)
    (by decide) (by decide) (by decide) (by decide) (by decide)

end NachFS
